import Mathlib

/-!
# libwebsockets: Base64 codec and TLS client handshake

A shallow embedding of the Base64 encoder and of the resumable decoder
(`lib/misc/base64-decode.c`), of the two TLS client handshake drivers and of
the initialiser of the client TLS context of a vhost
(`lib/tls/tls-client.c`), and the properties of them that the specification
states.

Conventions of the embedding:

* a C `char` / `unsigned char` / `uint8_t` is a natural number, reduced
  modulo 256 where the C code stores it into an 8-bit object;
* a `size_t` is a natural number reduced modulo `2 ^ 64` where the C code
  can wrap;
* an `int` is an `Int`;
* an input buffer `in` of `in_len` bytes is the list of those bytes;
* the output pointer only ever moves forward by `*out++ = ...`, so the effect
  of a call on the output buffer is the list of bytes it stored, in order,
  starting at `out[0]`; `bufAfter` overlays that list on the old contents.
-/

namespace Lws

/-! ## Tables (lines 45-50) -/

/-- Standard alphabet, `encode_orig[]`. -/
def encode_orig : List Nat :=
  ("ABCDEFGHIJKLMNOPQRSTUVWXYZ" ++ "abcdefghijklmnopqrstuvwxyz0123456789+/").toList.map Char.toNat

/-- URL-safe alphabet, `encode_url[]`. -/
def encode_url : List Nat :=
  ("ABCDEFGHIJKLMNOPQRSTUVWXYZ" ++ "abcdefghijklmnopqrstuvwxyz0123456789-_").toList.map Char.toNat

/-- Inverse table, `decode[]`, indexed by `v - 43`; the two braces of the C
string are written as hexadecimal escapes. -/
def decode : List Nat :=
  ("|$$$\x7drstuvwxyz\x7b$$$$$$$>?@ABCDEFGHIJKLMNOPQRSTUVW" ++
    "$$$$$$XYZ[\\]^_`abcdefghijklmnopq").toList.map Char.toNat

/-! ## Encoder (lines 52-104) -/

/-- The four stores of one loop body (lines 75-80): `t0 t1 t2` is `triple[]`,
`len` the number of input bytes the group holds; 61 is `'='`. -/
def encGroup (encode : List Nat) (t0 t1 t2 len : Nat) : List Nat :=
  [ encode.getD (t0 >>> 2) 0,
    encode.getD (((t0 &&& 0x03) <<< 4) ||| ((t1 &&& 0xf0) >>> 4)) 0,
    if len > 1 then encode.getD (((t1 &&& 0x0f) <<< 2) ||| ((t2 &&& 0xc0) >>> 6)) 0 else 61,
    if len > 2 then encode.getD (t2 &&& 0x3f) 0 else 61 ]

/-- The `while (in_len)` loop of `_lws_b64_encode_string` and the code after
it (lines 61-91). The input list is what is left of `in`, `done` is the local
`done`, `w` the bytes stored so far. The inner `for` loop takes up to three
bytes, filling `triple[]` with zeros when the input runs out. The result is
the return value and the bytes stored. -/
def encLoop (encode : List Nat) (out_size : Int) : List Nat → Int → List Nat → Int × List Nat
  | [], done, w =>
      if done + 1 ≥ out_size then (-1, w) else (done, w ++ [0])
  | [a], done, w =>
      if done + 4 ≥ out_size then (-1, w)
      else encLoop encode out_size [] (done + 4) (w ++ encGroup encode (a % 256) 0 0 1)
  | [a, b], done, w =>
      if done + 4 ≥ out_size then (-1, w)
      else encLoop encode out_size [] (done + 4) (w ++ encGroup encode (a % 256) (b % 256) 0 2)
  | a :: b :: c :: rest, done, w =>
      if done + 4 ≥ out_size then (-1, w)
      else encLoop encode out_size rest (done + 4)
        (w ++ encGroup encode (a % 256) (b % 256) (c % 256) 3)

/-- `_lws_b64_encode_string(encode, in, in_len, out, out_size)`, with
`in_len` the length of the list `inp`: return value and bytes stored. -/
def _lws_b64_encode_string (encode : List Nat) (inp : List Nat) (out_size : Int) :
    Int × List Nat :=
  encLoop encode out_size inp 0 []

/-- `lws_b64_encode_string` (line 94). -/
def lws_b64_encode_string (inp : List Nat) (out_size : Int) : Int × List Nat :=
  _lws_b64_encode_string encode_orig inp out_size

/-- `lws_b64_encode_string_url` (line 100). -/
def lws_b64_encode_string_url (inp : List Nat) (out_size : Int) : Int × List Nat :=
  _lws_b64_encode_string encode_url inp out_size

/-- Contents of an output buffer `buf` after the bytes `w` were stored from
its start on. -/
def bufAfter (w buf : List Nat) : List Nat :=
  w ++ buf.drop w.length

/-! ## Decoder (lines 107-215) -/

/-- `struct lws_b64state`: `quad[4]`, `done`, `len`, `i`, `c`. The index `i`
and the character `c` never become negative in the code and are natural
numbers here. -/
structure lws_b64state where
  quad0 : Nat
  quad1 : Nat
  quad2 : Nat
  quad3 : Nat
  done : Nat
  len : Nat
  i : Nat
  c : Nat
  deriving DecidableEq, Repr

/-- `lws_b64_decode_state_init`: `memset(state, 0, sizeof(*state))`. -/
def lws_b64_decode_state_init : lws_b64state :=
  { quad0 := 0, quad1 := 0, quad2 := 0, quad3 := 0, done := 0, len := 0, i := 0, c := 0 }

/-- The store `s->quad[k] = x`; the loop guard `s->i < 4` keeps `k` below 4. -/
def setQuad (s : lws_b64state) (k x : Nat) : lws_b64state :=
  match k with
  | 0 => { s with quad0 := x }
  | 1 => { s with quad1 := x }
  | 2 => { s with quad2 := x }
  | 3 => { s with quad3 := x }
  | _ => s

/-- Number of values of a `size_t`. -/
def SIZE_MOD : Nat := 2 ^ 64

/-- `x + y` in `size_t` arithmetic. -/
def size_add (x y : Nat) : Nat :=
  (x + y) % SIZE_MOD

/-- `x - 1` in `size_t` arithmetic: 0 wraps to the largest value. -/
def size_dec (x : Nat) : Nat :=
  if x = 0 then SIZE_MOD - 1 else x - 1

/-- One pass of the body of the innermost `while` (lines 128-136) on the input
byte `x`: the new `s->c` and the new `v`. 45 is `'-'`, 43 `'+'`, 95 `'_'`,
47 `'/'`, 36 `'$'`. -/
def decodeChar (x : Nat) : Nat × Nat :=
  let v := x % 256
  let v := if v = 45 then 43 else v
  let v := if v = 95 then 47 else v
  let c := v
  let v := if v < 43 ∨ v > 122 then 0 else decode.getD (v - 43) 0
  let v := if v ≠ 0 then (if v = 36 then 0 else v - 61) else v
  (c, v)

/-- The innermost loop `while (in < end_in && *in && !v)` (lines 127-137):
from the rest of the input and the current `s->c` and `v` to the rest of the
input, `s->c` and `v` when the loop ends. -/
def scanSym : List Nat → Nat → Nat → List Nat × Nat × Nat
  | [], c, v => ([], c, v)
  | x :: xs, c, v =>
      if x % 256 ≠ 0 ∧ v = 0 then scanSym xs (decodeChar x).1 (decodeChar x).2
      else (x :: xs, c, v)

/-- The condition `in < end_in && *in`. -/
def moreInput : List Nat → Bool
  | [] => false
  | x :: _ => x % 256 != 0

/-- The loop `for (; s->i < 4 && in < end_in && *in; s->i++)` (lines 122-144).
The first argument bounds the number of passes; four are enough, as `s->i`
grows by one in each pass. -/
def forLoop : Nat → lws_b64state → List Nat → lws_b64state × List Nat
  | 0, s, inp => (s, inp)
  | n + 1, s, inp =>
      if s.i < 4 ∧ moreInput inp = true then
        let r := scanSym inp 0 0
        let s1 := { s with c := r.2.1 }
        let s2 :=
          if r.2.1 ≠ 0 then
            let s3 := { s1 with len := size_add s1.len 1 }
            if r.2.2 ≠ 0 then setQuad s3 s3.i (r.2.2 - 1) else s3
          else setQuad s1 s1.i 0
        forLoop n { s2 with i := s2.i + 1 } r.1
      else (s, inp)

/-- Lines 149-168: the end of a group. `atEnd` is `in >= end_in || !*in`.
Gives the new state and the bytes stored. `s->len--` and `s->len - 1` are
`size_dec`, and `s->done += ...` is `size_add`. -/
def emitGroup (s : lws_b64state) (atEnd : Bool) : lws_b64state × List Nat :=
  let s1 := { s with i := 0 }
  let s2 := if atEnd = true ∧ s1.c = 61 then { s1 with len := size_dec s1.len } else s1
  let o1 := if s2.len ≥ 2 then [((s2.quad0 <<< 2) ||| (s2.quad1 >>> 4)) % 256] else []
  let o2 := if s2.len ≥ 3 then [((s2.quad1 <<< 4) ||| (s2.quad2 >>> 2)) % 256] else []
  let o3 := if s2.len ≥ 4 then [(((s2.quad2 <<< 6) &&& 0xc0) ||| s2.quad3) % 256] else []
  ({ s2 with done := size_add s2.done (size_dec s2.len), len := 0 }, o1 ++ o2 ++ o3)

/-- The outer loop `while (in < end_in && *in && out + 4 < end_out)` (lines
120-169). `cap` is `*out_size` on entry, `out` the bytes stored so far. The
first argument bounds the number of passes: `none` means the bound was
reached. Result: state, rest of the input, bytes stored. -/
def decodeLoop (final : Bool) (cap : Nat) :
    Nat → lws_b64state → List Nat → List Nat → Option (lws_b64state × List Nat × List Nat)
  | 0, _, _, _ => none
  | fuel + 1, s, inp, out =>
      if moreInput inp = true ∧ out.length + 4 < cap then
        let r := forLoop 4 s inp
        if r.1.i ≠ 4 ∧ final = false then decodeLoop final cap fuel r.1 r.2 out
        else
          let e := emitGroup r.1 (!moreInput r.2)
          decodeLoop final cap fuel e.1 r.2 (out ++ e.2)
      else some (s, inp, out)

/-- What a call of `lws_b64_decode_stateful` leaves behind. -/
structure DecodeResult where
  /-- The state `*s` after the call. -/
  state : lws_b64state
  /-- The value of `*in_len` after the call: bytes consumed. -/
  in_len : Nat
  /-- The value of `*out_size` after the call: bytes produced. -/
  out_size : Nat
  /-- The bytes stored in `out`, the trailing `'\0'` of line 171 included. -/
  out : List Nat
  deriving DecidableEq, Repr

/-- `lws_b64_decode_stateful(s, in, in_len, out, out_size, final)` (lines
113-176), `inp` being the `*in_len` bytes at `in` and `out_size` the value of
`*out_size` on entry. Every pass of the outer loop but the first consumes
input, so `inp.length + 2` passes are enough when the call returns
(`decode_stateful_returns`); `none` is a call that does not return, which
needs `s->i > 4` without `final` (`decodeLoop_spins`). The C return value is
always 0. -/
def lws_b64_decode_stateful (s : lws_b64state) (inp : List Nat) (out_size : Nat)
    (final : Bool) : Option DecodeResult :=
  match decodeLoop final out_size (inp.length + 2) s inp [] with
  | none => none
  | some (s1, rest, out) =>
      some { state := s1, in_len := inp.length - rest.length, out_size := out.length,
             out := out ++ [0] }

/-- `strlen`. -/
def strlen (inp : List Nat) : Nat :=
  (inp.takeWhile (fun x => x % 256 != 0)).length

/-- `_lws_b64_decode_string(in, in_len, out, out_size)` (lines 187-203): the
return value and the bytes stored in `out`. The conversions of `in_len` and
`out_size` to `size_t` are modulo `2 ^ 64`; the conversion of `ol` to the
`int` returned is taken as exact, the count being below `2 ^ 31`. -/
def _lws_b64_decode_string (inp : List Nat) (in_len : Int) (out_size : Int) :
    Option (Int × List Nat) :=
  let il : Nat := if in_len = -1 then strlen inp else (in_len % (SIZE_MOD : Int)).toNat
  let ol : Nat := (out_size % (SIZE_MOD : Int)).toNat
  match lws_b64_decode_stateful lws_b64_decode_state_init (inp.take il) ol true with
  | none => none
  | some r => some (if r.in_len = 0 then 0 else (r.out_size : Int), r.out)

/-- `lws_b64_decode_string` (line 205). -/
def lws_b64_decode_string (inp : List Nat) (out_size : Int) : Option (Int × List Nat) :=
  _lws_b64_decode_string inp (-1) out_size

/-- `lws_b64_decode_string_len` (line 211). -/
def lws_b64_decode_string_len (inp : List Nat) (in_len : Int) (out_size : Int) :
    Option (Int × List Nat) :=
  _lws_b64_decode_string inp in_len out_size

/-! ## Auxiliary definitions for the statements -/

/-- The characters the encoder produces when nothing stops it: the groups of
`encGroup` for the input taken three bytes at a time, as `encLoop` takes it. -/
def encAll (encode : List Nat) : List Nat → List Nat
  | [] => []
  | [a] => encGroup encode (a % 256) 0 0 1
  | [a, b] => encGroup encode (a % 256) (b % 256) 0 2
  | a :: b :: c :: rest =>
      encGroup encode (a % 256) (b % 256) (c % 256) 3 ++ encAll encode rest

/-- RFC 4648, table 1: the character of the 6-bit value `k` in the standard
alphabet: 0-25 are `A`-`Z`, 26-51 `a`-`z`, 52-61 `0`-`9`, 62 is `+`, 63 `/`. -/
def rfc4648_sym (k : Nat) : Nat :=
  if k < 26 then 65 + k
  else if k < 52 then 97 + (k - 26)
  else if k < 62 then 48 + (k - 52)
  else if k = 62 then 43 else 47

/-- RFC 4648, section 4, written from the RFC and not from the C code: the
input is cut into 24-bit groups, each read as four 6-bit values, most
significant first; a last group of 8 bits gives two characters and `==`, one
of 16 bits three characters and `=`, the missing bits being zero. -/
def rfc4648_encode : List Nat → List Nat
  | [] => []
  | [a] =>
      [rfc4648_sym (a * 65536 / 262144 % 64), rfc4648_sym (a * 65536 / 4096 % 64), 61, 61]
  | [a, b] =>
      [rfc4648_sym ((a * 65536 + b * 256) / 262144 % 64),
       rfc4648_sym ((a * 65536 + b * 256) / 4096 % 64),
       rfc4648_sym ((a * 65536 + b * 256) / 64 % 64), 61]
  | a :: b :: c :: rest =>
      [rfc4648_sym ((a * 65536 + b * 256 + c) / 262144 % 64),
       rfc4648_sym ((a * 65536 + b * 256 + c) / 4096 % 64),
       rfc4648_sym ((a * 65536 + b * 256 + c) / 64 % 64),
       rfc4648_sym ((a * 65536 + b * 256 + c) % 64)] ++ rfc4648_encode rest

/-- The URL-safe variant of a character: `-` for `+` and `_` for `/`. -/
def url_sub (ch : Nat) : Nat :=
  if ch = 43 then 45 else if ch = 47 then 95 else ch

/-- Number of `=` characters at the end of a character sequence. -/
def trailingPad (l : List Nat) : Nat :=
  (l.reverse.takeWhile (fun x => x == 61)).length

/-- Bytes of a string literal. -/
def bytes (s : String) : List Nat :=
  s.toList.map Char.toNat

/-- What the decoder needs of an alphabet: its characters are not NUL and
`decodeChar` gives back the 6-bit value plus one, and a character that is
neither NUL nor `=`. -/
def GoodAlphabet (encode : List Nat) : Prop :=
  ∀ k < 64, encode.getD k 0 % 256 ≠ 0 ∧ (decodeChar (encode.getD k 0)).2 = k + 1 ∧
    (decodeChar (encode.getD k 0)).1 ≠ 0 ∧ (decodeChar (encode.getD k 0)).1 ≠ 61

/-- Two characters are interchangeable for the decoder when they are equal,
or are both among `+` (43) and `-` (45), or both among `/` (47) and `_` (95). -/
def interchangeable (a b : Nat) : Prop :=
  a = b ∨ ((a = 43 ∨ a = 45) ∧ (b = 43 ∨ b = 45)) ∨ ((a = 47 ∨ a = 95) ∧ (b = 47 ∨ b = 95))

/-- The standard character for a character: `+` for `-` and `/` for `_`. -/
def std_char (x : Nat) : Nat :=
  if x = 45 then 43 else if x = 95 then 47 else x

/-! ## TLS client handshake (`lib/tls/tls-client.c`, lines 27-89)

The functions this file calls and that are defined elsewhere
(`lws_tls_client_connect`, `lws_callback_on_writable`, `lws_latency_pre`,
`lws_latency`, `lws_snprintf`, `lws_tls_client_confirm_peer_cert`) are not
executed: a call of one of them is recorded, in order, in the list of calls a
driver function returns, and what the TLS engine and the certificate check
answer is an argument of the driver function. The only field of `struct lws`
the drivers read or write is the connection state. Logging is left out. -/

/-- The results of `lws_tls_client_connect`, `enum lws_ssl_capable_status`. -/
inductive lws_ssl_capable_status
  | LWS_SSL_CAPABLE_ERROR
  | LWS_SSL_CAPABLE_DONE
  | LWS_SSL_CAPABLE_MORE_SERVICE_READ
  | LWS_SSL_CAPABLE_MORE_SERVICE_WRITE
  | LWS_SSL_CAPABLE_MORE_SERVICE
  deriving DecidableEq, Repr

/-- Modelled from the spec: the connection states, whose enumeration is
declared in a header that is not among the sources. Section 3 of the
specification names `AWAITING_SOCKET`, `WAITING_ON_TLS_HANDSHAKE`,
`ESTABLISHED` and `FAILED`; `LRS_WAITING_SSL` is the name the code has for
`WAITING_ON_TLS_HANDSHAKE`. -/
inductive lws_conn_state
  | AWAITING_SOCKET
  | LRS_WAITING_SSL
  | ESTABLISHED
  | FAILED
  deriving DecidableEq, Repr

/-- The part of `struct lws` the handshake drivers use: `lwsi_state(wsi)`. -/
structure lws where
  state : lws_conn_state
  deriving DecidableEq, Repr

/-- A call of a function defined outside `tls-client.c`, with the arguments
that matter here. -/
inductive tls_call
  | lws_latency_pre
  | lws_tls_client_connect
  | lws_latency (label : String) (n : lws_ssl_capable_status)
  | lws_callback_on_writable
  | lws_snprintf (len : Int) (text : String)
  | lws_tls_client_confirm_peer_cert (len : Int)
  deriving DecidableEq, Repr

/-- What a handshake driver leaves behind: its return value, the connection
and the calls it made, oldest first. -/
structure ConnectResult where
  ret : Int
  wsi : lws
  calls : List tls_call
  deriving DecidableEq, Repr

/-- `lws_ssl_client_connect1(wsi)` (lines 27-53); `n` is what
`lws_tls_client_connect` returns in this call. -/
def lws_ssl_client_connect1 (n : lws_ssl_capable_status) (wsi : lws) : ConnectResult :=
  let made := [tls_call.lws_latency_pre, tls_call.lws_tls_client_connect,
    tls_call.lws_latency "SSL_connect hs" n]
  match n with
  | .LWS_SSL_CAPABLE_ERROR => { ret := -1, wsi := wsi, calls := made }
  | .LWS_SSL_CAPABLE_DONE => { ret := 1, wsi := wsi, calls := made }
  | .LWS_SSL_CAPABLE_MORE_SERVICE_WRITE =>
      { ret := 0, wsi := { wsi with state := .LRS_WAITING_SSL },
        calls := made ++ [tls_call.lws_callback_on_writable] }
  | .LWS_SSL_CAPABLE_MORE_SERVICE_READ =>
      { ret := 0, wsi := { wsi with state := .LRS_WAITING_SSL }, calls := made }
  | .LWS_SSL_CAPABLE_MORE_SERVICE => { ret := 0, wsi := wsi, calls := made }

/-- The `if (lwsi_state(wsi) == LRS_WAITING_SSL)` block of
`lws_ssl_client_connect2` (lines 60-83): `some r` in the first component is a
`return r` inside the block, `none` is control leaving the block. -/
def connect2_step (n : lws_ssl_capable_status) (wsi : lws) (len : Int) :
    Option Int × lws × List tls_call :=
  if wsi.state = .LRS_WAITING_SSL then
    let made := [tls_call.lws_latency_pre, tls_call.lws_tls_client_connect,
      tls_call.lws_latency "SSL_connect LRS_WAITING_SSL" n]
    match n with
    | .LWS_SSL_CAPABLE_ERROR =>
        (some (-1), wsi, made ++ [tls_call.lws_snprintf len "client connect failed"])
    | .LWS_SSL_CAPABLE_DONE => (none, wsi, made)
    | .LWS_SSL_CAPABLE_MORE_SERVICE_WRITE =>
        (some 0, { wsi with state := .LRS_WAITING_SSL },
          made ++ [tls_call.lws_callback_on_writable])
    | .LWS_SSL_CAPABLE_MORE_SERVICE_READ =>
        (some 0, { wsi with state := .LRS_WAITING_SSL }, made)
    | .LWS_SSL_CAPABLE_MORE_SERVICE => (some 0, wsi, made)
  else (none, wsi, [])

/-- `lws_ssl_client_connect2(wsi, errbuf, len)` (lines 55-89); `n` is what
`lws_tls_client_connect` returns if it is called, `confirm` what
`lws_tls_client_confirm_peer_cert` returns if it is called (0 is a
certificate that passes). -/
def lws_ssl_client_connect2 (n : lws_ssl_capable_status) (confirm : Int) (wsi : lws)
    (len : Int) : ConnectResult :=
  match connect2_step n wsi len with
  | (some r, w, made) => { ret := r, wsi := w, calls := made }
  | (none, w, made) =>
      let made2 := made ++ [tls_call.lws_tls_client_confirm_peer_cert len]
      if confirm ≠ 0 then { ret := -1, wsi := w, calls := made2 }
      else { ret := 1, wsi := w, calls := made2 }

/-- Number of calls of `lws_callback_on_writable` among calls. -/
def writable_registrations (calls : List tls_call) : Nat :=
  calls.count tls_call.lws_callback_on_writable

/-- Number of calls of `lws_tls_client_connect` among calls. -/
def engine_calls (calls : List tls_call) : Nat :=
  calls.count tls_call.lws_tls_client_connect

/-- Number of calls of `lws_tls_client_confirm_peer_cert` among calls. -/
def confirmations (calls : List tls_call) : Nat :=
  calls.countP (fun c => match c with
    | .lws_tls_client_confirm_peer_cert _ => true
    | _ => false)

/-! ## Client TLS context of a vhost (`lib/tls/tls-client.c`, lines 92-164)

A pointer is an `Option`, `none` being `NULL`; a TLS context is named by a
number. `lws_tls_client_create_vhost_context` and the callback of protocol 0
are defined elsewhere: a call of one of them is recorded with its arguments,
and what the constructor does is an argument of the initialiser. The callback
is taken not to change the vhost. Logging is left out. -/

/-- The members of `struct lws_context_creation_info` the initialiser reads.
`do_ssl_global_init` is
`lws_check_opt(info->options, LWS_SERVER_OPTION_DO_SSL_GLOBAL_INIT)`. -/
structure lws_context_creation_info where
  ssl_private_key_filepath : Option String
  ssl_cert_filepath : Option String
  ssl_ca_filepath : Option String
  ssl_cipher_list : Option String
  client_ssl_private_key_filepath : Option String
  client_ssl_cert_filepath : Option String
  client_ssl_ca_filepath : Option String
  client_ssl_cipher_list : Option String
  client_ssl_ca_mem : Option (List Nat)
  client_ssl_ca_mem_len : Nat
  client_ssl_cert_mem : Option (List Nat)
  client_ssl_cert_mem_len : Nat
  do_ssl_global_init : Bool
  provided_client_ssl_ctx : Option Nat
  deriving DecidableEq, Repr

/-- The members of `struct lws_vhost` the initialiser reads or writes.
`adopt_apply_listen_accept_config` is
`vhost->options & LWS_SERVER_OPTION_ADOPT_APPLY_LISTEN_ACCEPT_CONFIG`;
`ssl_ctx`, `ssl_client_ctx` and `user_supplied_ssl_ctx` are the members of
`vhost->tls`. -/
structure lws_vhost where
  adopt_apply_listen_accept_config : Bool
  ssl_ctx : Option Nat
  ssl_client_ctx : Option Nat
  user_supplied_ssl_ctx : Nat
  deriving DecidableEq, Repr

/-- A call the initialiser makes on code defined elsewhere: the constructor,
with its arguments after `vhost` and `info` in the order of the C call, and
the callback of protocol 0 with
`LWS_CALLBACK_OPENSSL_LOAD_EXTRA_CLIENT_VERIFY_CERTS` and its `user`
argument. -/
inductive init_call
  | lws_tls_client_create_vhost_context (cipher_list ca_filepath : Option String)
      (ca_mem : Option (List Nat)) (ca_mem_len : Nat) (cert_filepath : Option String)
      (cert_mem : Option (List Nat)) (cert_mem_len : Nat)
      (private_key_filepath : Option String)
  | callback_load_extra_client_verify_certs (user : Option Nat)
  deriving DecidableEq, Repr

/-- What a call of the initialiser leaves behind: its return value, the vhost
and the calls it made, oldest first. -/
structure InitResult where
  ret : Int
  vhost : lws_vhost
  calls : List init_call
  deriving DecidableEq, Repr

/-- `lws_context_init_client_ssl(info, vhost)` (lines 92-164). `created` is
what `lws_tls_client_create_vhost_context` does if it is called: its return
value, and the value of `vhost->tls.ssl_client_ctx` when it has returned. -/
def lws_context_init_client_ssl (created : Int × Option Nat)
    (info : lws_context_creation_info) (vhost : lws_vhost) : InitResult :=
  let private_key_filepath := info.ssl_private_key_filepath
  let cert_filepath := info.ssl_cert_filepath
  let ca_filepath := info.ssl_ca_filepath
  let cipher_list := info.ssl_cipher_list
  if vhost.adopt_apply_listen_accept_config = true then
    { ret := 0, vhost := vhost, calls := [] }
  else
    let cert_filepath := if vhost.ssl_ctx.isSome = true then none else cert_filepath
    let private_key_filepath :=
      if vhost.ssl_ctx.isSome = true then none else private_key_filepath
    let ca_filepath := if vhost.ssl_ctx.isSome = true then none else ca_filepath
    let cipher_list :=
      if info.client_ssl_cipher_list.isSome = true then info.client_ssl_cipher_list
      else cipher_list
    let cert_filepath :=
      if info.client_ssl_cert_filepath.isSome = true then info.client_ssl_cert_filepath
      else cert_filepath
    let private_key_filepath :=
      if info.client_ssl_private_key_filepath.isSome = true then
        info.client_ssl_private_key_filepath
      else private_key_filepath
    let ca_filepath :=
      if info.client_ssl_ca_filepath.isSome = true then info.client_ssl_ca_filepath
      else ca_filepath
    if info.do_ssl_global_init = false then { ret := 0, vhost := vhost, calls := [] }
    else if vhost.ssl_client_ctx.isSome = true then { ret := 0, vhost := vhost, calls := [] }
    else if info.provided_client_ssl_ctx.isSome = true then
      { ret := 0,
        vhost := { vhost with ssl_client_ctx := info.provided_client_ssl_ctx,
                              user_supplied_ssl_ctx := 1 },
        calls := [] }
    else
      let construct := init_call.lws_tls_client_create_vhost_context cipher_list ca_filepath
        info.client_ssl_ca_mem info.client_ssl_ca_mem_len cert_filepath
        info.client_ssl_cert_mem info.client_ssl_cert_mem_len private_key_filepath
      let vhost1 := { vhost with ssl_client_ctx := created.2 }
      if created.1 ≠ 0 then { ret := 1, vhost := vhost1, calls := [construct] }
      else
        { ret := 0, vhost := vhost1,
          calls := [construct,
            init_call.callback_load_extra_client_verify_certs vhost1.ssl_client_ctx] }

/-- Whether a call is a call of the constructor. -/
def is_construct : init_call → Bool
  | .lws_tls_client_create_vhost_context _ _ _ _ _ _ _ _ => true
  | _ => false

/-- Whether a call is a call of the callback of protocol 0. -/
def is_hook : init_call → Bool
  | .callback_load_extra_client_verify_certs _ => true
  | _ => false

/-- Whether the call that left `r` built a context: the constructor was called
and the initialiser returned 0. -/
def constructed (r : InitResult) : Bool :=
  r.calls.any is_construct && r.ret == 0

/-- A sequence of calls of the initialiser on one vhost, each with what the
constructor does if it is called and with its configuration: the vhost at the
end and the results of the calls, in order. -/
def init_sequence : lws_vhost → List ((Int × Option Nat) × lws_context_creation_info) →
    lws_vhost × List InitResult
  | vhost, [] => (vhost, [])
  | vhost, (created, info) :: rest =>
      let r := lws_context_init_client_ssl created info vhost
      let t := init_sequence r.vhost rest
      (t.1, r :: t.2)

/-- The values the initialiser passes to the constructor for a path that has
a client-specific member and a legacy member: the client-specific one when it
is given, else the legacy one, unless the vhost has a server TLS context. -/
def resolved_path (vhost : lws_vhost) (client legacy : Option String) : Option String :=
  if client.isSome = true then client
  else if vhost.ssl_ctx.isSome = true then none else legacy

/-- Handshake driven by wake-ups after the first: `lws_ssl_client_connect2`
for each engine result in turn, on the connection the step before left. -/
def drive_connect2 (confirm len : Int) : lws → List lws_ssl_capable_status → List ConnectResult
  | _, [] => []
  | wsi, n :: ns =>
      (lws_ssl_client_connect2 n confirm wsi len) ::
        drive_connect2 confirm len (lws_ssl_client_connect2 n confirm wsi len).wsi ns

/-- A scripted handshake: `lws_ssl_client_connect1` with the first engine
result, then `lws_ssl_client_connect2` with each later one; the results of
the steps, in order. -/
def drive_handshake (confirm len : Int) (wsi : lws) :
    List lws_ssl_capable_status → List ConnectResult
  | [] => []
  | n :: ns =>
      (lws_ssl_client_connect1 n wsi) ::
        drive_connect2 confirm len (lws_ssl_client_connect1 n wsi).wsi ns

/-- A sequence of calls of `lws_b64_decode_stateful` on one state, each given
by its input, its output capacity and its `final` flag: the results of the
calls, in order, or `none` when a call does not return. -/
def decode_calls : lws_b64state → List (List Nat × Nat × Bool) → Option (List DecodeResult)
  | _, [] => some []
  | s, (inp, cap, final) :: rest =>
      match lws_b64_decode_stateful s inp cap final with
      | none => none
      | some r =>
          match decode_calls r.state rest with
          | none => none
          | some rs => some (r :: rs)

/-- The call of the constructor the initialiser makes when it reaches it:
the cipher list is the client-specific one when it is given, else
`ssl_cipher_list`; the three paths are resolved by `resolved_path`; the
in-memory certificates are passed as they are. -/
def construct_call (info : lws_context_creation_info) (vhost : lws_vhost) : init_call :=
  init_call.lws_tls_client_create_vhost_context
    (if info.client_ssl_cipher_list.isSome = true then info.client_ssl_cipher_list
     else info.ssl_cipher_list)
    (resolved_path vhost info.client_ssl_ca_filepath info.ssl_ca_filepath)
    info.client_ssl_ca_mem info.client_ssl_ca_mem_len
    (resolved_path vhost info.client_ssl_cert_filepath info.ssl_cert_filepath)
    info.client_ssl_cert_mem info.client_ssl_cert_mem_len
    (resolved_path vhost info.client_ssl_private_key_filepath info.ssl_private_key_filepath)

/-- A configuration with legacy and client-specific settings, for the
examples. -/
def example_info : lws_context_creation_info :=
  { ssl_private_key_filepath := some "server.key", ssl_cert_filepath := some "server.pem",
    ssl_ca_filepath := some "ca.pem", ssl_cipher_list := some "HIGH",
    client_ssl_private_key_filepath := none, client_ssl_cert_filepath := some "client.pem",
    client_ssl_ca_filepath := none, client_ssl_cipher_list := none,
    client_ssl_ca_mem := none, client_ssl_ca_mem_len := 0, client_ssl_cert_mem := none,
    client_ssl_cert_mem_len := 0, do_ssl_global_init := true,
    provided_client_ssl_ctx := none }

/-- A vhost without TLS contexts, for the examples. -/
def example_vhost : lws_vhost :=
  { adopt_apply_listen_accept_config := false, ssl_ctx := none, ssl_client_ctx := none,
    user_supplied_ssl_ctx := 0 }

/-! ## Theorems -/

/-! ### Encoder -/

theorem encGroup_length (encode : List Nat) (t0 t1 t2 len : Nat) :
    (encGroup encode t0 t1 t2 len).length = 4 := by
  simp [encGroup]

/-- With room for every group and two more bytes the loop stores every group
and the terminator. -/
theorem encLoop_ok (encode : List Nat) (out_size : Int) (inp : List Nat) (done : Int)
    (w : List Nat) (h : done + 4 * ((inp.length + 2) / 3 : Nat) + 1 < out_size) :
    encLoop encode out_size inp done w
      = (done + 4 * ((inp.length + 2) / 3 : Nat), w ++ encAll encode inp ++ [0]) := by
  induction inp, done, w using encLoop.induct encode out_size with
  | case1 done w h1 => simp only [List.length_nil] at h; omega
  | case2 done w h1 => simp [encLoop, encAll, h1]
  | case3 a done w h1 => simp only [List.length_cons, List.length_nil] at h; omega
  | case4 a done w h1 ih =>
      simp only [List.length_cons, List.length_nil] at h
      have h2 : ¬ (done + 4 + 1 ≥ out_size) := by omega
      simp [encLoop, encAll, h1, h2]
  | case5 a b done w h1 => simp only [List.length_cons, List.length_nil] at h; omega
  | case6 a b done w h1 ih =>
      simp only [List.length_cons, List.length_nil] at h
      have h2 : ¬ (done + 4 + 1 ≥ out_size) := by omega
      simp [encLoop, encAll, h1, h2]
  | case7 a b c rest done w h1 =>
      simp only [List.length_cons] at h
      omega
  | case8 a b c rest done w h1 ih =>
      simp only [List.length_cons] at h
      have e : (rest.length + 1 + 1 + 1 + 2) / 3 = (rest.length + 2) / 3 + 1 := by omega
      rw [encLoop, if_neg h1, ih (by omega)]
      simp only [List.length_cons, encAll, e, List.append_assoc, Prod.mk.injEq, and_true]
      push_cast
      omega

/-- Without room for every group the loop fails inside a group test, having
stored the groups that passed it. -/
theorem encLoop_fail (encode : List Nat) (out_size : Int) (inp : List Nat) (done : Int)
    (w : List Nat) (h : out_size ≤ done + 4 * ((inp.length + 2) / 3 : Nat)) :
    encLoop encode out_size inp done w
      = (-1, w ++ (encAll encode inp).take (4 * ((out_size - done - 1) / 4).toNat)) := by
  induction inp, done, w using encLoop.induct encode out_size with
  | case1 done w h1 =>
      simp [encLoop, h1, encAll]
  | case2 done w h1 => simp only [List.length_nil] at h; omega
  | case3 a done w h1 =>
      have e : ((out_size - done - 1) / 4).toNat = 0 := by omega
      simp [encLoop, h1, e]
  | case4 a done w h1 ih => simp only [List.length_cons, List.length_nil] at h; omega
  | case5 a b done w h1 =>
      have e : ((out_size - done - 1) / 4).toNat = 0 := by omega
      simp [encLoop, h1, e]
  | case6 a b done w h1 ih => simp only [List.length_cons, List.length_nil] at h; omega
  | case7 a b c rest done w h1 =>
      have e : ((out_size - done - 1) / 4).toNat = 0 := by omega
      simp [encLoop, h1, e]
  | case8 a b c rest done w h1 ih =>
      simp only [List.length_cons] at h
      have e : ((out_size - done - 1) / 4).toNat
          = ((out_size - (done + 4) - 1) / 4).toNat + 1 := by
        omega
      rw [encLoop, if_neg h1, ih (by omega), e]
      simp [encAll, List.take_append_eq_append_take, encGroup_length, Nat.mul_add]

/-- The loop fails when the terminator has no room after the last group and
one more byte. -/
theorem encLoop_fail_ret (encode : List Nat) (out_size : Int) (inp : List Nat) (done : Int)
    (w : List Nat) (h : out_size ≤ done + 4 * ((inp.length + 2) / 3 : Nat) + 1) :
    (encLoop encode out_size inp done w).1 = -1 := by
  induction inp, done, w using encLoop.induct encode out_size with
  | case1 done w h1 => simp [encLoop, h1]
  | case2 done w h1 => simp only [List.length_nil] at h; omega
  | case3 a done w h1 => simp [encLoop, h1]
  | case4 a done w h1 ih =>
      simp only [List.length_cons, List.length_nil] at h
      have h2 : done + 4 + 1 ≥ out_size := by omega
      simp [encLoop, h1, h2]
  | case5 a b done w h1 => simp [encLoop, h1]
  | case6 a b done w h1 ih =>
      simp only [List.length_cons, List.length_nil] at h
      have h2 : done + 4 + 1 ≥ out_size := by omega
      simp [encLoop, h1, h2]
  | case7 a b c rest done w h1 => simp [encLoop, h1]
  | case8 a b c rest done w h1 ih =>
      simp only [List.length_cons] at h
      rw [encLoop, if_neg h1]
      exact ih (by omega)


/-! ### Bit operations on bytes -/

section Bits
set_option maxRecDepth 100000

theorem and3_eq : ∀ a < 256, a &&& 3 = a % 4 := by decide
theorem and15_eq : ∀ a < 256, a &&& 15 = a % 16 := by decide
theorem and63_eq : ∀ a < 256, a &&& 63 = a % 64 := by decide
theorem and240_shr : ∀ a < 256, (a &&& 240) >>> 4 = a / 16 := by decide
theorem and192_shr : ∀ a < 256, (a &&& 192) >>> 6 = a / 64 := by decide
theorem shr2_eq : ∀ a < 256, a >>> 2 = a / 4 := by decide
theorem shl4_or : ∀ h < 64, ∀ l < 16, (h <<< 4) ||| l = h * 16 + l := by decide
theorem shl2_or : ∀ h < 64, ∀ l < 4, (h <<< 2) ||| l = h * 4 + l := by decide
theorem shl6_and : ∀ q < 64, (q <<< 6) &&& 192 = (q % 4) * 64 := by decide
theorem mul64_or : ∀ h < 4, ∀ l < 64, (h * 64) ||| l = h * 64 + l := by decide
theorem shr4_eq : ∀ q < 64, q >>> 4 = q / 16 := by decide
theorem shr2_eq64 : ∀ q < 64, q >>> 2 = q / 4 := by decide

theorem encode_orig_sym : ∀ k < 64, encode_orig.getD k 0 = rfc4648_sym k := by decide
theorem encode_url_sym : ∀ k < 64, encode_url.getD k 0 = url_sub (encode_orig.getD k 0) := by
  decide

end Bits

/-- The four 6-bit values the encoder takes from a group. -/
theorem enc_index (a b c : Nat) (ha : a < 256) (hb : b < 256) (hc : c < 256) :
    a >>> 2 = a / 4 ∧
    ((a &&& 0x03) <<< 4) ||| ((b &&& 0xf0) >>> 4) = a % 4 * 16 + b / 16 ∧
    ((b &&& 0x0f) <<< 2) ||| ((c &&& 0xc0) >>> 6) = b % 16 * 4 + c / 64 ∧
    c &&& 0x3f = c % 64 := by
  refine ⟨shr2_eq a ha, ?_, ?_, and63_eq c hc⟩
  · rw [and3_eq a ha, and240_shr b hb, shl4_or _ (by omega) _ (by omega)]
  · rw [and15_eq b hb, and192_shr c hc, shl2_or _ (by omega) _ (by omega)]

theorem encGroup_rfc3 (a b c : Nat) (ha : a < 256) (hb : b < 256) (hc : c < 256) :
    encGroup encode_orig a b c 3 =
      [rfc4648_sym ((a * 65536 + b * 256 + c) / 262144 % 64),
       rfc4648_sym ((a * 65536 + b * 256 + c) / 4096 % 64),
       rfc4648_sym ((a * 65536 + b * 256 + c) / 64 % 64),
       rfc4648_sym ((a * 65536 + b * 256 + c) % 64)] := by
  obtain ⟨h0, h1, h2, h3⟩ := enc_index a b c ha hb hc
  simp only [encGroup, h0, h1, h2, h3]
  rw [encode_orig_sym _ (by omega), encode_orig_sym _ (by omega),
    encode_orig_sym _ (by omega), encode_orig_sym _ (by omega)]
  have e0 : (a * 65536 + b * 256 + c) / 262144 % 64 = a / 4 := by omega
  have e1 : (a * 65536 + b * 256 + c) / 4096 % 64 = a % 4 * 16 + b / 16 := by omega
  have e2 : (a * 65536 + b * 256 + c) / 64 % 64 = b % 16 * 4 + c / 64 := by omega
  have e3 : (a * 65536 + b * 256 + c) % 64 = c % 64 := by omega
  simp [e0, e1, e2, e3]

theorem encGroup_rfc2 (a b : Nat) (ha : a < 256) (hb : b < 256) :
    encGroup encode_orig a b 0 2 =
      [rfc4648_sym ((a * 65536 + b * 256) / 262144 % 64),
       rfc4648_sym ((a * 65536 + b * 256) / 4096 % 64),
       rfc4648_sym ((a * 65536 + b * 256) / 64 % 64), 61] := by
  obtain ⟨h0, h1, h2, -⟩ := enc_index a b 0 ha hb (by omega)
  simp only [encGroup, h0, h1, h2]
  rw [encode_orig_sym _ (by omega), encode_orig_sym _ (by omega),
    encode_orig_sym _ (by omega)]
  have e0 : (a * 65536 + b * 256) / 262144 % 64 = a / 4 := by omega
  have e1 : (a * 65536 + b * 256) / 4096 % 64 = a % 4 * 16 + b / 16 := by omega
  have e2 : (a * 65536 + b * 256) / 64 % 64 = b % 16 * 4 + 0 / 64 := by omega
  simp [e0, e1, e2]

theorem encGroup_rfc1 (a : Nat) (ha : a < 256) :
    encGroup encode_orig a 0 0 1 =
      [rfc4648_sym (a * 65536 / 262144 % 64), rfc4648_sym (a * 65536 / 4096 % 64), 61, 61] := by
  obtain ⟨h0, h1, -, -⟩ := enc_index a 0 0 ha (by omega) (by omega)
  simp only [encGroup, h0, h1]
  rw [encode_orig_sym _ (by omega), encode_orig_sym _ (by omega)]
  have e0 : a * 65536 / 262144 % 64 = a / 4 := by omega
  have e1 : a * 65536 / 4096 % 64 = a % 4 * 16 + 0 / 16 := by omega
  simp [e0, e1]

/-- On bytes the characters of the encoder are the RFC 4648 encoding. -/
theorem encAll_rfc (inp : List Nat) (h : ∀ x ∈ inp, x < 256) :
    encAll encode_orig inp = rfc4648_encode inp := by
  induction inp using rfc4648_encode.induct with
  | case1 => rfl
  | case2 a =>
      have ha : a < 256 := h a (by simp)
      simp only [encAll, rfc4648_encode, Nat.mod_eq_of_lt ha, encGroup_rfc1 a ha]
  | case3 a b =>
      have ha : a < 256 := h a (by simp)
      have hb : b < 256 := h b (by simp)
      simp only [encAll, rfc4648_encode, Nat.mod_eq_of_lt ha, Nat.mod_eq_of_lt hb,
        encGroup_rfc2 a b ha hb]
  | case4 a b c rest ih =>
      have ha : a < 256 := h a (by simp)
      have hb : b < 256 := h b (by simp)
      have hc : c < 256 := h c (by simp)
      simp only [encAll, rfc4648_encode, Nat.mod_eq_of_lt ha, Nat.mod_eq_of_lt hb,
        Nat.mod_eq_of_lt hc, encGroup_rfc3 a b c ha hb hc]
      rw [ih (fun x hx => h x (by simp [hx]))]

theorem encode_url_getD (k : Nat) : encode_url.getD k 0 = url_sub (encode_orig.getD k 0) := by
  by_cases hk : k < 64
  · exact encode_url_sym k hk
  · have h1 : encode_url.length ≤ k := by
      have : encode_url.length = 64 := by decide
      omega
    have h2 : encode_orig.length ≤ k := by
      have : encode_orig.length = 64 := by decide
      omega
    rw [List.getD_eq_default _ _ h1, List.getD_eq_default _ _ h2]
    rfl

theorem encGroup_url (t0 t1 t2 len : Nat) :
    encGroup encode_url t0 t1 t2 len = (encGroup encode_orig t0 t1 t2 len).map url_sub := by
  simp only [encGroup, encode_url_getD, List.map_cons, List.map_nil]
  have e : url_sub 61 = 61 := rfl
  split_ifs <;> simp [e]

/-- The URL-safe encoder stores the characters of the standard one with `-`
for `+` and `_` for `/`. -/
theorem encAll_url (inp : List Nat) :
    encAll encode_url inp = (encAll encode_orig inp).map url_sub := by
  induction inp using rfc4648_encode.induct with
  | case1 => rfl
  | case2 a => simp only [encAll, encGroup_url]
  | case3 a b => simp only [encAll, encGroup_url]
  | case4 a b c rest ih => simp only [encAll, encGroup_url, ih, List.map_append]


theorem encode_orig_ne_pad (k : Nat) : encode_orig.getD k 0 ≠ 61 := by
  by_cases hk : k < 64
  · have h : ∀ k < 64, encode_orig.getD k 0 ≠ 61 := by decide
    exact h k hk
  · have h2 : encode_orig.length ≤ k := by
      have : encode_orig.length = 64 := by decide
      omega
    rw [List.getD_eq_default _ _ h2]
    decide

theorem encode_url_ne_pad (k : Nat) : encode_url.getD k 0 ≠ 61 := by
  by_cases hk : k < 64
  · have h : ∀ k < 64, encode_url.getD k 0 ≠ 61 := by decide
    exact h k hk
  · have h2 : encode_url.length ≤ k := by
      have : encode_url.length = 64 := by decide
      omega
    rw [List.getD_eq_default _ _ h2]
    decide

/-- The last group of the characters of a non-empty input. -/
theorem encAll_last (encode : List Nat) (hne : ∀ k, encode.getD k 0 ≠ 61) (inp : List Nat)
    (h : inp ≠ []) :
    ∃ pre y0 y1 y2 y3, encAll encode inp = pre ++ [y0, y1, y2, y3] ∧ y1 ≠ 61 ∧
      (inp.length % 3 = 1 → y2 = 61 ∧ y3 = 61) ∧
      (inp.length % 3 = 2 → y2 ≠ 61 ∧ y3 = 61) ∧
      (inp.length % 3 = 0 → y3 ≠ 61) := by
  induction inp using rfc4648_encode.induct with
  | case1 => exact absurd rfl h
  | case2 a =>
      exact ⟨[], _, _, _, _, by simp only [encAll, encGroup]; rfl, hne _, by simp, by simp,
        by simp⟩
  | case3 a b =>
      refine ⟨[], _, _, _, _, by simp only [encAll, encGroup]; rfl, hne _, by simp, ?_, by simp⟩
      intro _
      exact ⟨hne _, rfl⟩
  | case4 a b c rest ih =>
      by_cases hr : rest = []
      · subst hr
        refine ⟨[], _, _, _, _, by simp only [encAll, encGroup]; rfl, hne _, by simp, by simp, ?_⟩
        intro _
        exact hne _
      · obtain ⟨pre, y0, y1, y2, y3, e, h1, h2, h3, h4⟩ := ih hr
        refine ⟨encGroup encode (a % 256) (b % 256) (c % 256) 3 ++ pre, y0, y1, y2, y3, ?_, h1,
          ?_, ?_, ?_⟩
        · simp only [encAll, e, List.append_assoc]
        · intro hl; apply h2; simp only [List.length_cons] at hl; omega
        · intro hl; apply h3; simp only [List.length_cons] at hl; omega
        · intro hl; apply h4; simp only [List.length_cons] at hl; omega

/-- Number of `=` at the end of the characters of the encoder. -/
theorem trailingPad_encAll (encode : List Nat) (hne : ∀ k, encode.getD k 0 ≠ 61)
    (inp : List Nat) :
    trailingPad (encAll encode inp)
      = if inp.length % 3 = 0 then 0 else if inp.length % 3 = 2 then 1 else 2 := by
  by_cases h : inp = []
  · subst h; rfl
  · obtain ⟨pre, y0, y1, y2, y3, e, h1, h2, h3, h4⟩ := encAll_last encode hne inp h
    rw [e]
    have hm : inp.length % 3 = 0 ∨ inp.length % 3 = 1 ∨ inp.length % 3 = 2 := by omega
    rcases hm with hm | hm | hm
    · simp [trailingPad, hm, h4 hm]
    · obtain ⟨e2, e3⟩ := h2 hm
      simp [trailingPad, hm, e2, e3, h1]
    · obtain ⟨e2, e3⟩ := h3 hm
      simp [trailingPad, hm, e2, e3]

theorem encAll_length (encode : List Nat) (inp : List Nat) :
    (encAll encode inp).length = 4 * ((inp.length + 2) / 3) := by
  induction inp using rfc4648_encode.induct with
  | case1 => rfl
  | case2 a => simp [encAll, encGroup]
  | case3 a b => simp [encAll, encGroup]
  | case4 a b c rest ih =>
      simp only [encAll, List.length_append, encGroup_length, ih, List.length_cons]
      omega

/-- The encoder succeeds exactly when `out_size` has room for the characters
and two more bytes, and then stores the characters and the terminator. -/
theorem encode_string_ok (encode : List Nat) (inp : List Nat) (out_size : Int)
    (hs : (_lws_b64_encode_string encode inp out_size).1 ≠ -1) :
    _lws_b64_encode_string encode inp out_size
      = (4 * (((inp.length + 2) / 3 : Nat) : Int), encAll encode inp ++ [0]) := by
  by_cases h : (0 : Int) + 4 * ((inp.length + 2) / 3 : Nat) + 1 < out_size
  · have := encLoop_ok encode out_size inp 0 [] h
    simpa [_lws_b64_encode_string] using this
  · exact absurd (encLoop_fail_ret encode out_size inp 0 [] (by omega)) hs

/-- C2. Encoder correctness: when `lws_b64_encode_string` succeeds on an input
of bytes, it returns `4 * ceil(in_len / 3)` and has stored the RFC 4648
encoding of the input in the standard alphabet followed by one `'\0'`, which
the return value does not count (the encoding alone has the returned length);
`lws_b64_encode_string_url` returns the same and has stored the same
characters with `-` for `+` and `_` for `/`. -/
theorem encode_correct (inp : List Nat) (out_size : Int) (hb : ∀ x ∈ inp, x < 256)
    (hs : (lws_b64_encode_string inp out_size).1 ≠ -1) :
    lws_b64_encode_string inp out_size
      = (4 * (((inp.length + 2) / 3 : Nat) : Int), rfc4648_encode inp ++ [0]) ∧
    lws_b64_encode_string_url inp out_size
      = (4 * (((inp.length + 2) / 3 : Nat) : Int), (rfc4648_encode inp).map url_sub ++ [0]) ∧
    (rfc4648_encode inp).length = 4 * ((inp.length + 2) / 3) := by
  have h1 := encode_string_ok encode_orig inp out_size hs
  have h2 : (_lws_b64_encode_string encode_url inp out_size).1 ≠ -1 := by
    by_cases h : (0 : Int) + 4 * ((inp.length + 2) / 3 : Nat) + 1 < out_size
    · have := encLoop_ok encode_url out_size inp 0 [] h
      simp only [_lws_b64_encode_string, this]
      omega
    · exact absurd (encLoop_fail_ret encode_orig out_size inp 0 [] (by omega)) hs
  have h3 := encode_string_ok encode_url inp out_size h2
  rw [encAll_rfc inp hb] at h1
  rw [encAll_url, encAll_rfc inp hb] at h3
  have h4 := encAll_length encode_orig inp
  rw [encAll_rfc inp hb] at h4
  exact ⟨h1, h3, h4⟩

/-- C2, the example of the self test: `"any carnal pleasure."` encodes to
`"YW55IGNhcm5hbCBwbGVhc3VyZS4="`, 28 characters, in a buffer of 64 bytes. -/
theorem encode_correct_witness :
    (∀ x ∈ bytes "any carnal pleasure.", x < 256) ∧
    (lws_b64_encode_string (bytes "any carnal pleasure.") 64).1 ≠ -1 ∧
    lws_b64_encode_string (bytes "any carnal pleasure.") 64
      = (28, bytes "YW55IGNhcm5hbCBwbGVhc3VyZS4=" ++ [0]) := by
  refine ⟨by decide, by decide, ?_⟩
  rw [(encode_correct (bytes "any carnal pleasure.") 64 (by decide) (by decide)).1]
  decide

/-- C3. Encoder padding law: when an encoder succeeds, the length it returns
is a multiple of 4 and the characters it stored end in no `=` when
`len % 3 = 0`, in one when `len % 3 = 2` and in two when `len % 3 = 1`; for
both alphabets. -/
theorem encode_padding (inp : List Nat) (out_size : Int) :
    ((lws_b64_encode_string inp out_size).1 ≠ -1 →
      (lws_b64_encode_string inp out_size).1 % 4 = 0 ∧
      trailingPad ((lws_b64_encode_string inp out_size).2.take
          (lws_b64_encode_string inp out_size).1.toNat)
        = if inp.length % 3 = 0 then 0 else if inp.length % 3 = 2 then 1 else 2) ∧
    ((lws_b64_encode_string_url inp out_size).1 ≠ -1 →
      (lws_b64_encode_string_url inp out_size).1 % 4 = 0 ∧
      trailingPad ((lws_b64_encode_string_url inp out_size).2.take
          (lws_b64_encode_string_url inp out_size).1.toNat)
        = if inp.length % 3 = 0 then 0 else if inp.length % 3 = 2 then 1 else 2) := by
  constructor
  · intro hs
    rw [lws_b64_encode_string, encode_string_ok encode_orig inp out_size hs]
    refine ⟨by omega, ?_⟩
    have e : (4 * (((inp.length + 2) / 3 : Nat) : Int)).toNat = (encAll encode_orig inp).length := by
      rw [encAll_length]; omega
    simp only [e, List.take_left']
    exact trailingPad_encAll encode_orig encode_orig_ne_pad inp
  · intro hs
    rw [lws_b64_encode_string_url, encode_string_ok encode_url inp out_size hs]
    refine ⟨by omega, ?_⟩
    have e : (4 * (((inp.length + 2) / 3 : Nat) : Int)).toNat = (encAll encode_url inp).length := by
      rw [encAll_length]; omega
    simp only [e, List.take_left']
    exact trailingPad_encAll encode_url encode_url_ne_pad inp

/-- C3 at `"any carnal pleasu"` (17 bytes): 24 characters, one `=`. -/
theorem encode_padding_witness :
    (lws_b64_encode_string (bytes "any carnal pleasu") 64).1 ≠ -1 ∧
    (lws_b64_encode_string (bytes "any carnal pleasu") 64).1 % 4 = 0 ∧
    trailingPad ((lws_b64_encode_string (bytes "any carnal pleasu") 64).2.take
        (lws_b64_encode_string (bytes "any carnal pleasu") 64).1.toNat) = 1 :=
  ⟨by decide, (encode_padding (bytes "any carnal pleasu") 64).1 (by decide)⟩


/-- C4. Encoder capacity boundary, as the code has it: with `out_size` equal
to the size the output needs, `R = 4 * ceil(in_len / 3) + 1`, the encoder
returns -1, after storing every character when there is one, because the test
before the terminator is `done + 1 >= out_size`; it succeeds from `R + 1` on.
The three bytes `"ABC"` with `out_size = 5` store `"QUJD"` and return -1. -/
theorem encode_exact_capacity_fails :
    lws_b64_encode_string (bytes "ABC") 5 = (-1, bytes "QUJD") ∧
    lws_b64_encode_string [] 1 = (-1, []) ∧
    ∀ inp : List Nat,
      (lws_b64_encode_string inp (4 * (((inp.length + 2) / 3 : Nat) : Int) + 1)).1 = -1 ∧
      (lws_b64_encode_string inp (4 * (((inp.length + 2) / 3 : Nat) : Int) + 2)).1
        = 4 * (((inp.length + 2) / 3 : Nat) : Int) := by
  refine ⟨by decide, by decide, fun inp => ⟨?_, ?_⟩⟩
  · exact encLoop_fail_ret encode_orig _ inp 0 [] (by omega)
  · have := encLoop_ok encode_orig (4 * (((inp.length + 2) / 3 : Nat) : Int) + 2) inp 0 []
      (by omega)
    simp only [lws_b64_encode_string, _lws_b64_encode_string, this]
    omega

/-- C5, counterexample: six bytes with `out_size = 6` make the encoder return
-1 after it has stored the first group: a buffer of six zero bytes holds
`"QUJD"` after the call. -/
theorem encode_failure_not_atomic :
    (lws_b64_encode_string (bytes "ABCDEF") 6).1 = -1 ∧
    (lws_b64_encode_string (bytes "ABCDEF") 6).2 ≠ [] ∧
    bufAfter (lws_b64_encode_string (bytes "ABCDEF") 6).2 [0, 0, 0, 0, 0, 0]
      = [81, 85, 74, 68, 0, 0] := by
  decide

/-- C5, amended. When `out_size` is too small for the characters and the
terminator (`out_size <= 4 * ceil(in_len / 3)`), the encoder returns -1 and
has stored whole groups only: the first `4 * k` characters of the encoding,
`k = max(0, (out_size - 1) div 4)` being the number of groups that passed the
test `done + 4 >= out_size`, and no terminator; the bytes of the buffer after
them are as before, and nothing at all is stored when `out_size <= 4`. For
both alphabets. -/
theorem encode_failure_leaves_groups (inp : List Nat) (out_size : Int) (buf : List Nat)
    (h : out_size ≤ 4 * (((inp.length + 2) / 3 : Nat) : Int)) :
    (lws_b64_encode_string inp out_size
        = (-1, (encAll encode_orig inp).take (4 * ((out_size - 1) / 4).toNat)) ∧
      lws_b64_encode_string_url inp out_size
        = (-1, (encAll encode_url inp).take (4 * ((out_size - 1) / 4).toNat))) ∧
    (lws_b64_encode_string inp out_size).2.length = 4 * ((out_size - 1) / 4).toNat ∧
    bufAfter (lws_b64_encode_string inp out_size).2 buf
      = (lws_b64_encode_string inp out_size).2 ++ buf.drop (4 * ((out_size - 1) / 4).toNat) ∧
    (out_size ≤ 4 → (lws_b64_encode_string inp out_size).2 = [] ∧
      bufAfter (lws_b64_encode_string inp out_size).2 buf = buf) := by
  have h1 := encLoop_fail encode_orig out_size inp 0 [] (by omega)
  have h2 := encLoop_fail encode_url out_size inp 0 [] (by omega)
  simp only [sub_zero, List.nil_append] at h1 h2
  have hl : ((encAll encode_orig inp).take (4 * ((out_size - 1) / 4).toNat)).length
      = 4 * ((out_size - 1) / 4).toNat := by
    rw [List.length_take, encAll_length]
    omega
  simp only [lws_b64_encode_string, lws_b64_encode_string_url, _lws_b64_encode_string, h1, h2,
    bufAfter, hl, true_and, and_self]
  intro h4
  have e : ((out_size - 1) / 4).toNat = 0 := by omega
  simp [e]

/-- C5, amended, at six bytes and `out_size = 6`: one group is stored. -/
theorem encode_failure_leaves_groups_witness :
    (6 : Int) ≤ 4 * ((((bytes "ABCDEF").length + 2) / 3 : Nat) : Int) ∧
    lws_b64_encode_string (bytes "ABCDEF") 6 = (-1, bytes "QUJD") := by
  refine ⟨by decide, ?_⟩
  rw [(encode_failure_leaves_groups (bytes "ABCDEF") 6 [] (by decide)).1.1]
  decide

/-! ### Decoder -/

theorem good_orig : GoodAlphabet encode_orig := by
  unfold GoodAlphabet
  decide

theorem good_url : GoodAlphabet encode_url := by
  unfold GoodAlphabet
  decide

theorem scanSym_stop (xs : List Nat) (c v : Nat) (hv : v ≠ 0) : scanSym xs c v = (xs, c, v) := by
  cases xs <;> simp [scanSym, hv]

theorem scanSym_valid (y : Nat) (xs : List Nat) (c : Nat) (h0 : y % 256 ≠ 0)
    (hv : (decodeChar y).2 ≠ 0) :
    scanSym (y :: xs) c 0 = (xs, (decodeChar y).1, (decodeChar y).2) := by
  rw [scanSym, if_pos ⟨h0, rfl⟩, scanSym_stop _ _ _ hv]

@[simp] theorem setQuad_i (s : lws_b64state) (k x : Nat) : (setQuad s k x).i = s.i := by
  unfold setQuad; split <;> rfl

@[simp] theorem setQuad_len (s : lws_b64state) (k x : Nat) : (setQuad s k x).len = s.len := by
  unfold setQuad; split <;> rfl

@[simp] theorem setQuad_c (s : lws_b64state) (k x : Nat) : (setQuad s k x).c = s.c := by
  unfold setQuad; split <;> rfl

@[simp] theorem setQuad_done (s : lws_b64state) (k x : Nat) : (setQuad s k x).done = s.done := by
  unfold setQuad; split <;> rfl

/-- One pass of the `for` loop over a character `y` that decodes to `k`. -/
theorem forLoop_valid (y k n : Nat) (s : lws_b64state) (xs : List Nat) (hi : s.i < 4)
    (h0 : y % 256 ≠ 0) (h1 : (decodeChar y).2 = k + 1) (h2 : (decodeChar y).1 ≠ 0) :
    forLoop (n + 1) s (y :: xs)
      = forLoop n
          { setQuad { s with c := (decodeChar y).1,
                             len := size_add s.len 1 } s.i k with i := s.i + 1 } xs := by
  have hm : moreInput (y :: xs) = true := by simp [moreInput, h0]
  have hv : (decodeChar y).2 ≠ 0 := by omega
  rw [forLoop, if_pos ⟨hi, hm⟩]
  simp only [scanSym_valid y xs 0 h0 hv]
  rw [if_pos h2, if_pos hv, h1]
  simp only [Nat.add_sub_cancel, setQuad_i]

/-- The `for` loop over the four characters of a full group. -/
theorem forLoop_group (y0 y1 y2 y3 k0 k1 k2 k3 : Nat) (s : lws_b64state) (xs : List Nat)
    (hi : s.i = 0) (hl : s.len = 0)
    (a0 : y0 % 256 ≠ 0) (b0 : (decodeChar y0).2 = k0 + 1) (c0 : (decodeChar y0).1 ≠ 0)
    (a1 : y1 % 256 ≠ 0) (b1 : (decodeChar y1).2 = k1 + 1) (c1 : (decodeChar y1).1 ≠ 0)
    (a2 : y2 % 256 ≠ 0) (b2 : (decodeChar y2).2 = k2 + 1) (c2 : (decodeChar y2).1 ≠ 0)
    (a3 : y3 % 256 ≠ 0) (b3 : (decodeChar y3).2 = k3 + 1) (c3 : (decodeChar y3).1 ≠ 0) :
    forLoop 4 s (y0 :: y1 :: y2 :: y3 :: xs)
      = ({ quad0 := k0, quad1 := k1, quad2 := k2, quad3 := k3, done := s.done, len := 4,
           i := 4, c := (decodeChar y3).1 }, xs) := by
  obtain ⟨q0, q1, q2, q3, done, len, i, c⟩ := s
  simp only at hi hl
  subst hi hl
  rw [forLoop_valid y0 k0 _ _ _ (by simp) a0 b0 c0,
    forLoop_valid y1 k1 _ _ _ (by simp) a1 b1 c1,
    forLoop_valid y2 k2 _ _ _ (by simp) a2 b2 c2,
    forLoop_valid y3 k3 _ _ _ (by simp) a3 b3 c3]
  simp [forLoop, setQuad, size_add, SIZE_MOD]

theorem scanSym_pad2 : scanSym [61, 61] 0 0 = ([], 61, 0) := by decide

theorem scanSym_pad1 : scanSym [61] 0 0 = ([], 61, 0) := by decide

theorem decodeLoop_nil (final : Bool) (cap fuel : Nat) (s : lws_b64state) (out : List Nat) :
    decodeLoop final cap (fuel + 1) s [] out = some (s, [], out) := by
  simp [decodeLoop, moreInput]

/-- One pass of the outer loop over a full group of characters of the
alphabet, the last of which is not `=`. -/
theorem decodeLoop_group (final : Bool) (cap fuel : Nat) (y0 y1 y2 y3 k0 k1 k2 k3 : Nat)
    (s : lws_b64state) (xs out : List Nat)
    (hi : s.i = 0) (hl : s.len = 0) (hc : out.length + 4 < cap)
    (a0 : y0 % 256 ≠ 0) (b0 : (decodeChar y0).2 = k0 + 1) (c0 : (decodeChar y0).1 ≠ 0)
    (a1 : y1 % 256 ≠ 0) (b1 : (decodeChar y1).2 = k1 + 1) (c1 : (decodeChar y1).1 ≠ 0)
    (a2 : y2 % 256 ≠ 0) (b2 : (decodeChar y2).2 = k2 + 1) (c2 : (decodeChar y2).1 ≠ 0)
    (a3 : y3 % 256 ≠ 0) (b3 : (decodeChar y3).2 = k3 + 1) (c3 : (decodeChar y3).1 ≠ 0)
    (d3 : (decodeChar y3).1 ≠ 61) (o0 o1 o2 : Nat)
    (e0 : ((k0 <<< 2) ||| (k1 >>> 4)) % 256 = o0) (e1 : ((k1 <<< 4) ||| (k2 >>> 2)) % 256 = o1)
    (e2 : (((k2 <<< 6) &&& 0xc0) ||| k3) % 256 = o2) :
    decodeLoop final cap (fuel + 1) s (y0 :: y1 :: y2 :: y3 :: xs) out
      = decodeLoop final cap fuel
          { quad0 := k0, quad1 := k1, quad2 := k2, quad3 := k3,
            done := size_add s.done 3, len := 0, i := 0,
            c := (decodeChar y3).1 } xs
          (out ++ [o0, o1, o2]) := by
  subst e0 e1 e2
  have hm : moreInput (y0 :: y1 :: y2 :: y3 :: xs) = true := by simp [moreInput, a0]
  rw [decodeLoop, if_pos ⟨hm, hc⟩]
  simp only [forLoop_group y0 y1 y2 y3 k0 k1 k2 k3 s xs hi hl a0 b0 c0 a1 b1 c1 a2 b2 c2 a3 b3 c3]
  simp [emitGroup, d3, size_dec]

theorem forLoop_pad2 (y0 y1 k0 k1 : Nat) (s : lws_b64state)
    (hi : s.i = 0) (hl : s.len = 0)
    (a0 : y0 % 256 ≠ 0) (b0 : (decodeChar y0).2 = k0 + 1) (c0 : (decodeChar y0).1 ≠ 0)
    (a1 : y1 % 256 ≠ 0) (b1 : (decodeChar y1).2 = k1 + 1) (c1 : (decodeChar y1).1 ≠ 0) :
    forLoop 4 s [y0, y1, 61, 61]
      = ({ quad0 := k0, quad1 := k1, quad2 := s.quad2, quad3 := s.quad3, done := s.done,
           len := 3, i := 3, c := 61 }, []) := by
  obtain ⟨q0, q1, q2, q3, done, len, i, c⟩ := s
  simp only at hi hl
  subst hi hl
  rw [forLoop_valid y0 k0 _ _ _ (by simp) a0 b0 c0,
    forLoop_valid y1 k1 _ _ _ (by simp) a1 b1 c1]
  simp [forLoop, moreInput, scanSym_pad2, setQuad, size_add, SIZE_MOD]

theorem forLoop_pad1 (y0 y1 y2 k0 k1 k2 : Nat) (s : lws_b64state)
    (hi : s.i = 0) (hl : s.len = 0)
    (a0 : y0 % 256 ≠ 0) (b0 : (decodeChar y0).2 = k0 + 1) (c0 : (decodeChar y0).1 ≠ 0)
    (a1 : y1 % 256 ≠ 0) (b1 : (decodeChar y1).2 = k1 + 1) (c1 : (decodeChar y1).1 ≠ 0)
    (a2 : y2 % 256 ≠ 0) (b2 : (decodeChar y2).2 = k2 + 1) (c2 : (decodeChar y2).1 ≠ 0) :
    forLoop 4 s [y0, y1, y2, 61]
      = ({ quad0 := k0, quad1 := k1, quad2 := k2, quad3 := s.quad3, done := s.done,
           len := 4, i := 4, c := 61 }, []) := by
  obtain ⟨q0, q1, q2, q3, done, len, i, c⟩ := s
  simp only at hi hl
  subst hi hl
  rw [forLoop_valid y0 k0 _ _ _ (by simp) a0 b0 c0,
    forLoop_valid y1 k1 _ _ _ (by simp) a1 b1 c1,
    forLoop_valid y2 k2 _ _ _ (by simp) a2 b2 c2]
  simp [forLoop, moreInput, scanSym_pad1, setQuad, size_add, SIZE_MOD]

/-- The outer loop with `final` over a last group `y0 y1 = =`. -/
theorem decodeLoop_pad2 (cap fuel : Nat) (y0 y1 k0 k1 : Nat)
    (s : lws_b64state) (out : List Nat)
    (hi : s.i = 0) (hl : s.len = 0) (hc : out.length + 4 < cap)
    (a0 : y0 % 256 ≠ 0) (b0 : (decodeChar y0).2 = k0 + 1) (c0 : (decodeChar y0).1 ≠ 0)
    (a1 : y1 % 256 ≠ 0) (b1 : (decodeChar y1).2 = k1 + 1) (c1 : (decodeChar y1).1 ≠ 0)
    (o0 : Nat) (e0 : ((k0 <<< 2) ||| (k1 >>> 4)) % 256 = o0) :
    decodeLoop true cap (fuel + 2) s [y0, y1, 61, 61] out
      = some ({ quad0 := k0, quad1 := k1, quad2 := s.quad2, quad3 := s.quad3,
                done := size_add s.done 1, len := 0, i := 0, c := 61 },
              [], out ++ [o0]) := by
  subst e0
  have hm : moreInput [y0, y1, 61, 61] = true := by simp [moreInput, a0]
  rw [decodeLoop, if_pos ⟨hm, hc⟩]
  simp only [forLoop_pad2 y0 y1 k0 k1 s hi hl a0 b0 c0 a1 b1 c1]
  simp only [emitGroup, moreInput, Bool.not_false, true_and, if_true, decodeLoop_nil, size_dec]
  norm_num

/-- The outer loop with `final` over a last group `y0 y1 y2 =`. -/
theorem decodeLoop_pad1 (cap fuel : Nat) (y0 y1 y2 k0 k1 k2 : Nat)
    (s : lws_b64state) (out : List Nat)
    (hi : s.i = 0) (hl : s.len = 0) (hc : out.length + 4 < cap)
    (a0 : y0 % 256 ≠ 0) (b0 : (decodeChar y0).2 = k0 + 1) (c0 : (decodeChar y0).1 ≠ 0)
    (a1 : y1 % 256 ≠ 0) (b1 : (decodeChar y1).2 = k1 + 1) (c1 : (decodeChar y1).1 ≠ 0)
    (a2 : y2 % 256 ≠ 0) (b2 : (decodeChar y2).2 = k2 + 1) (c2 : (decodeChar y2).1 ≠ 0)
    (o0 o1 : Nat) (e0 : ((k0 <<< 2) ||| (k1 >>> 4)) % 256 = o0)
    (e1 : ((k1 <<< 4) ||| (k2 >>> 2)) % 256 = o1) :
    decodeLoop true cap (fuel + 2) s [y0, y1, y2, 61] out
      = some ({ quad0 := k0, quad1 := k1, quad2 := k2, quad3 := s.quad3,
                done := size_add s.done 2, len := 0, i := 0, c := 61 },
              [], out ++ [o0, o1]) := by
  subst e0 e1
  have hm : moreInput [y0, y1, y2, 61] = true := by simp [moreInput, a0]
  rw [decodeLoop, if_pos ⟨hm, hc⟩]
  simp only [forLoop_pad1 y0 y1 y2 k0 k1 k2 s hi hl a0 b0 c0 a1 b1 c1 a2 b2 c2]
  simp only [emitGroup, moreInput, Bool.not_false, true_and, if_true, decodeLoop_nil, size_dec]
  norm_num

/-- The bytes the decoder computes from the 6-bit values of a group. -/
theorem dec_bytes (a b c : Nat) (ha : a < 256) (hb : b < 256) (hc : c < 256) :
    (((a / 4) <<< 2) ||| ((a % 4 * 16 + b / 16) >>> 4)) % 256 = a ∧
    (((a % 4 * 16 + b / 16) <<< 4) ||| ((b % 16 * 4 + c / 64) >>> 2)) % 256 = b ∧
    ((((b % 16 * 4 + c / 64) <<< 6) &&& 0xc0) ||| (c % 64)) % 256 = c := by
  refine ⟨?_, ?_, ?_⟩
  · rw [shr4_eq _ (by omega), shl2_or _ (by omega) _ (by omega)]
    omega
  · rw [shr2_eq64 _ (by omega), shl4_or _ (by omega) _ (by omega)]
    omega
  · rw [shl6_and _ (by omega), mul64_or _ (by omega) _ (by omega)]
    omega

/-- The stores of one pass of the encoder, by the 6-bit values of the group. -/
theorem encGroup_idx (encode : List Nat) (a b c len : Nat) (ha : a < 256) (hb : b < 256)
    (hc : c < 256) :
    encGroup encode a b c len
      = [encode.getD (a / 4) 0, encode.getD (a % 4 * 16 + b / 16) 0,
         if len > 1 then encode.getD (b % 16 * 4 + c / 64) 0 else 61,
         if len > 2 then encode.getD (c % 64) 0 else 61] := by
  obtain ⟨h0, h1, h2, h3⟩ := enc_index a b c ha hb hc
  simp only [encGroup, h0, h1, h2, h3]

/-- The outer loop of the decoder, with `final`, over the characters the
encoder produces for the bytes `b` gives back `b`. -/
theorem decodeLoop_encAll (encode : List Nat) (hg : GoodAlphabet encode) (cap : Nat)
    (b : List Nat) (hb : ∀ x ∈ b, x < 256) :
    ∀ (fuel : Nat) (s : lws_b64state) (out : List Nat), s.i = 0 → s.len = 0 →
      (b.length + 2) / 3 < fuel →
      (b = [] ∨ out.length + 3 * ((b.length + 2) / 3) + 2 ≤ cap) →
      ∃ s1, decodeLoop true cap fuel s (encAll encode b) out = some (s1, [], out ++ b) := by
  induction b using rfc4648_encode.induct with
  | case1 =>
      intro fuel s out _ _ hf _
      obtain ⟨f, rfl⟩ : ∃ f, fuel = f + 1 := ⟨fuel - 1, by omega⟩
      exact ⟨s, by simp [encAll, decodeLoop_nil]⟩
  | case2 a =>
      intro fuel s out hi hl hf hcap
      have ha : a < 256 := hb a (by simp)
      simp only [List.length_cons, List.length_nil] at hf hcap
      obtain ⟨f, rfl⟩ : ∃ f, fuel = f + 2 := ⟨fuel - 2, by omega⟩
      have hc : out.length + 4 < cap := by
        rcases hcap with h | h
        · simp at h
        · omega
      obtain ⟨p0, q0, r0, -⟩ := hg (a / 4) (by omega)
      obtain ⟨p1, q1, r1, -⟩ := hg (a % 4 * 16) (by omega)
      have e := (dec_bytes a 0 0 ha (by omega) (by omega)).1
      simp only [Nat.zero_div, Nat.add_zero] at e
      simp only [encAll, Nat.mod_eq_of_lt ha,
        encGroup_idx encode a 0 0 1 ha (by omega) (by omega), gt_iff_lt, lt_self_iff_false,
        if_false, Nat.one_lt_ofNat, show ¬ (2 < 1) by omega, Nat.zero_div, Nat.add_zero]
      exact ⟨_, decodeLoop_pad2 cap f (encode.getD (a / 4) 0) (encode.getD (a % 4 * 16) 0)
        (a / 4) (a % 4 * 16) s out hi hl hc p0 q0 r0 p1 q1 r1 a e⟩
  | case3 a b =>
      intro fuel s out hi hl hf hcap
      have ha : a < 256 := hb a (by simp)
      have hb2 : b < 256 := hb b (by simp)
      simp only [List.length_cons, List.length_nil] at hf hcap
      obtain ⟨f, rfl⟩ : ∃ f, fuel = f + 2 := ⟨fuel - 2, by omega⟩
      have hc : out.length + 4 < cap := by
        rcases hcap with h | h
        · simp at h
        · omega
      obtain ⟨p0, q0, r0, -⟩ := hg (a / 4) (by omega)
      obtain ⟨p1, q1, r1, -⟩ := hg (a % 4 * 16 + b / 16) (by omega)
      obtain ⟨p2, q2, r2, -⟩ := hg (b % 16 * 4) (by omega)
      obtain ⟨e0, e1, -⟩ := dec_bytes a b 0 ha hb2 (by omega)
      simp only [Nat.zero_div, Nat.add_zero] at e1
      simp only [encAll, Nat.mod_eq_of_lt ha, Nat.mod_eq_of_lt hb2,
        encGroup_idx encode a b 0 2 ha hb2 (by omega), gt_iff_lt, lt_self_iff_false,
        if_false, Nat.one_lt_ofNat, if_true, show ¬ (2 < 2) by omega, Nat.zero_div,
        Nat.add_zero]
      exact ⟨_, decodeLoop_pad1 cap f (encode.getD (a / 4) 0)
        (encode.getD (a % 4 * 16 + b / 16) 0) (encode.getD (b % 16 * 4) 0)
        (a / 4) (a % 4 * 16 + b / 16) (b % 16 * 4) s out
        hi hl hc p0 q0 r0 p1 q1 r1 p2 q2 r2 a b e0 e1⟩
  | case4 a b c rest ih =>
      intro fuel s out hi hl hf hcap
      have ha : a < 256 := hb a (by simp)
      have hb2 : b < 256 := hb b (by simp)
      have hc2 : c < 256 := hb c (by simp)
      simp only [List.length_cons] at hf hcap
      obtain ⟨f, rfl⟩ : ∃ f, fuel = f + 1 := ⟨fuel - 1, by omega⟩
      have hcap2 : out.length + 3 * ((rest.length + 2) / 3 + 1) + 2 ≤ cap := by
        rcases hcap with h | h
        · simp at h
        · have e : (rest.length + 1 + 1 + 1 + 2) / 3 = (rest.length + 2) / 3 + 1 := by omega
          rw [e] at h
          exact h
      have hc : out.length + 4 < cap := by omega
      obtain ⟨p0, q0, r0, -⟩ := hg (a / 4) (by omega)
      obtain ⟨p1, q1, r1, -⟩ := hg (a % 4 * 16 + b / 16) (by omega)
      obtain ⟨p2, q2, r2, -⟩ := hg (b % 16 * 4 + c / 64) (by omega)
      obtain ⟨p3, q3, r3, t3⟩ := hg (c % 64) (by omega)
      simp only [encAll, Nat.mod_eq_of_lt ha, Nat.mod_eq_of_lt hb2, Nat.mod_eq_of_lt hc2,
        encGroup_idx encode a b c 3 ha hb2 hc2]
      simp only [gt_iff_lt, Nat.one_lt_ofNat, if_true, show (2 : Nat) < 3 by omega,
        List.cons_append, List.nil_append]
      obtain ⟨e0, e1, e2⟩ := dec_bytes a b c ha hb2 hc2
      rw [decodeLoop_group true cap f (encode.getD (a / 4) 0)
        (encode.getD (a % 4 * 16 + b / 16) 0) (encode.getD (b % 16 * 4 + c / 64) 0)
        (encode.getD (c % 64) 0) (a / 4) (a % 4 * 16 + b / 16) (b % 16 * 4 + c / 64)
        (c % 64) s (encAll encode rest) out hi hl hc p0 q0 r0 p1 q1 r1 p2 q2 r2 p3 q3 r3 t3
        a b c e0 e1 e2]
      have e : out ++ a :: b :: c :: rest = (out ++ [a, b, c]) ++ rest := by simp
      rw [e]
      refine ih (fun x hx => hb x (by simp [hx])) f _ _ rfl rfl (by omega) ?_
      right
      simp only [List.length_append, List.length_cons, List.length_nil]
      omega

/-- The characters of the encoder are not NUL. -/
theorem encAll_nonzero (encode : List Nat) (hg : GoodAlphabet encode) (b : List Nat) :
    ∀ x ∈ encAll encode b, x % 256 ≠ 0 := by
  induction b using rfc4648_encode.induct with
  | case1 => simp [encAll]
  | case2 a =>
      have ha : a % 256 < 256 := Nat.mod_lt _ (by omega)
      simp only [encAll, encGroup_idx encode (a % 256) 0 0 1 ha (by omega) (by omega)]
      intro x hx
      simp only [gt_iff_lt, lt_self_iff_false, if_false, show ¬ (2 < 1) by omega,
        List.mem_cons, List.mem_singleton, List.mem_nil_iff, or_false] at hx
      rcases hx with h | h | h | h
      · rw [h]; exact (hg _ (by omega)).1
      · rw [h]; exact (hg _ (by omega)).1
      · rw [h]; decide
      · rw [h]; decide
  | case3 a b =>
      have ha : a % 256 < 256 := Nat.mod_lt _ (by omega)
      have hb : b % 256 < 256 := Nat.mod_lt _ (by omega)
      simp only [encAll, encGroup_idx encode (a % 256) (b % 256) 0 2 ha hb (by omega)]
      intro x hx
      simp only [gt_iff_lt, lt_self_iff_false, if_false, Nat.one_lt_ofNat, if_true,
        List.mem_cons, List.mem_singleton, List.mem_nil_iff, or_false] at hx
      rcases hx with h | h | h | h
      · rw [h]; exact (hg _ (by omega)).1
      · rw [h]; exact (hg _ (by omega)).1
      · rw [h]; exact (hg _ (by omega)).1
      · rw [h]; decide
  | case4 a b c rest ih =>
      have ha : a % 256 < 256 := Nat.mod_lt _ (by omega)
      have hb : b % 256 < 256 := Nat.mod_lt _ (by omega)
      have hc : c % 256 < 256 := Nat.mod_lt _ (by omega)
      simp only [encAll, encGroup_idx encode (a % 256) (b % 256) (c % 256) 3 ha hb hc]
      intro x hx
      simp only [gt_iff_lt, Nat.one_lt_ofNat, if_true, show (2 : Nat) < 3 by omega,
        List.cons_append, List.nil_append, List.mem_cons] at hx
      rcases hx with h | h | h | h | h
      · rw [h]; exact (hg _ (by omega)).1
      · rw [h]; exact (hg _ (by omega)).1
      · rw [h]; exact (hg _ (by omega)).1
      · rw [h]; exact (hg _ (by omega)).1
      · exact ih x h

theorem strlen_terminated (l : List Nat) (h : ∀ x ∈ l, x % 256 ≠ 0) (t : List Nat) :
    strlen (l ++ 0 :: t) = l.length := by
  induction l with
  | nil => simp [strlen]
  | cons x xs ih =>
      have hx : x % 256 ≠ 0 := h x (by simp)
      have := ih (fun y hy => h y (by simp [hy]))
      have hx2 : (x % 256 != 0) = true := by simp [hx]
      simp only [strlen] at this ⊢
      simp only [List.cons_append, List.takeWhile_cons, hx2, if_true, List.length_cons, this]

/-- A call of `lws_b64_decode_stateful` with `final` on a fresh state and the
characters the encoder produces for the bytes `b`. -/
theorem decode_stateful_encAll (encode : List Nat) (hg : GoodAlphabet encode) (cap : Nat)
    (b : List Nat) (hb : ∀ x ∈ b, x < 256)
    (hcap : b = [] ∨ 3 * ((b.length + 2) / 3) + 2 ≤ cap) :
    ∃ s1, lws_b64_decode_stateful lws_b64_decode_state_init (encAll encode b) cap true
      = some { state := s1, in_len := (encAll encode b).length, out_size := b.length,
               out := b ++ [0] } := by
  obtain ⟨s1, h⟩ := decodeLoop_encAll encode hg cap b hb ((encAll encode b).length + 2)
    lws_b64_decode_state_init [] rfl rfl (by rw [encAll_length]; omega)
    (by simpa using hcap)
  refine ⟨s1, ?_⟩
  simp only [lws_b64_decode_stateful, h]
  simp

/-- The one-shot decoder on the characters the encoder produces. -/
theorem decode_string_encAll (encode : List Nat) (hg : GoodAlphabet encode)
    (b : List Nat) (hb : ∀ x ∈ b, x < 256) (inp : List Nat) (in_len dsize : Int)
    (hin : inp.take (if in_len = -1 then strlen inp else (in_len % (SIZE_MOD : Int)).toNat)
      = encAll encode b)
    (hcap : b = [] ∨ 3 * ((b.length + 2) / 3) + 2 ≤ (dsize % (SIZE_MOD : Int)).toNat) :
    _lws_b64_decode_string inp in_len dsize = some ((b.length : Int), b ++ [0]) := by
  obtain ⟨s1, h⟩ := decode_stateful_encAll encode hg _ b hb hcap
  simp only [_lws_b64_decode_string, hin, h]
  by_cases hb0 : b = []
  · subst hb0; simp [encAll]
  · have : (encAll encode b).length ≠ 0 := by
      rw [encAll_length]
      have : 0 < b.length := List.length_pos.mpr hb0
      omega
    simp [this]

theorem size_mod_cast : (SIZE_MOD : Int) = 18446744073709551616 := by
  simp [SIZE_MOD]

/-- A successful encoder call had room for the characters and two bytes. -/
theorem encode_string_room (encode : List Nat) (inp : List Nat) (out_size : Int)
    (hs : (_lws_b64_encode_string encode inp out_size).1 ≠ -1) :
    4 * (((inp.length + 2) / 3 : Nat) : Int) + 1 < out_size := by
  by_contra h
  exact hs (encLoop_fail_ret encode out_size inp 0 [] (by omega))

/-- Round trip for one alphabet. -/
theorem roundtrip_alphabet (encode : List Nat) (hg : GoodAlphabet encode) (b : List Nat)
    (esize dsize : Int) (hb : ∀ x ∈ b, x < 256) (he : esize ≤ 2147483647)
    (hd : dsize ≤ 2147483647)
    (hcap : b = [] ∨ 3 * (((b.length + 2) / 3 : Nat) : Int) + 2 ≤ dsize)
    (hs : (_lws_b64_encode_string encode b esize).1 ≠ -1) :
    _lws_b64_decode_string (_lws_b64_encode_string encode b esize).2 (-1) dsize
        = some ((b.length : Int), b ++ [0]) ∧
    _lws_b64_decode_string (_lws_b64_encode_string encode b esize).2
        (_lws_b64_encode_string encode b esize).1 dsize
        = some ((b.length : Int), b ++ [0]) := by
  have hroom := encode_string_room encode b esize hs
  rw [encode_string_ok encode b esize hs]
  have hcap2 : b = [] ∨ 3 * ((b.length + 2) / 3) + 2 ≤ (dsize % (SIZE_MOD : Int)).toNat := by
    rcases hcap with h | h
    · exact Or.inl h
    · right
      rw [size_mod_cast]
      omega
  have hnz := encAll_nonzero encode hg b
  constructor
  · apply decode_string_encAll encode hg b hb _ _ _ _ hcap2
    rw [if_pos rfl, strlen_terminated _ hnz []]
    exact List.take_left' rfl
  · apply decode_string_encAll encode hg b hb _ _ _ _ hcap2
    have h1 : ¬ ((4 * (((b.length + 2) / 3 : Nat) : Int)) = -1) := by omega
    have h2 : ((4 * (((b.length + 2) / 3 : Nat) : Int)) % (SIZE_MOD : Int)).toNat
        = (encAll encode b).length := by
      rw [size_mod_cast, encAll_length]
      omega
    simp only [if_neg h1, h2]
    exact List.take_left' rfl

/-- C1. Round trip: for every sequence of bytes `b` and both encoders, when
the encoder succeeds and the output buffer of the decoder is large enough for
it to consume its whole input (`3 * ceil(len / 3) + 2` bytes for a non-empty
`b`), `lws_b64_decode_string` and `lws_b64_decode_string_len` on the output of
the encoder return `len(b)` and store the bytes of `b` (followed by the
`'\0'` of the decoder). The sizes are C `int`s. -/
theorem roundtrip (b : List Nat) (esize dsize : Int) (hb : ∀ x ∈ b, x < 256)
    (he : esize ≤ 2147483647) (hd : dsize ≤ 2147483647)
    (hcap : b = [] ∨ 3 * (((b.length + 2) / 3 : Nat) : Int) + 2 ≤ dsize) :
    ((lws_b64_encode_string b esize).1 ≠ -1 →
      lws_b64_decode_string (lws_b64_encode_string b esize).2 dsize
          = some ((b.length : Int), b ++ [0]) ∧
      lws_b64_decode_string_len (lws_b64_encode_string b esize).2
          (lws_b64_encode_string b esize).1 dsize = some ((b.length : Int), b ++ [0])) ∧
    ((lws_b64_encode_string_url b esize).1 ≠ -1 →
      lws_b64_decode_string (lws_b64_encode_string_url b esize).2 dsize
          = some ((b.length : Int), b ++ [0]) ∧
      lws_b64_decode_string_len (lws_b64_encode_string_url b esize).2
          (lws_b64_encode_string_url b esize).1 dsize = some ((b.length : Int), b ++ [0])) :=
  ⟨roundtrip_alphabet encode_orig good_orig b esize dsize hb he hd hcap,
   roundtrip_alphabet encode_url good_url b esize dsize hb he hd hcap⟩

/-- C1 at the 20 bytes of `"any carnal pleasure."` with the 64-byte buffers
of the self test. -/
theorem roundtrip_witness :
    (∀ x ∈ bytes "any carnal pleasure.", x < 256) ∧
    (lws_b64_encode_string (bytes "any carnal pleasure.") 64).1 ≠ -1 ∧
    lws_b64_decode_string (lws_b64_encode_string (bytes "any carnal pleasure.") 64).2 64
      = some (20, bytes "any carnal pleasure." ++ [0]) :=
  ⟨by decide, by decide,
   ((roundtrip (bytes "any carnal pleasure.") 64 64 (by decide) (by decide) (by decide)
      (Or.inr (by decide))).1 (by decide)).1⟩

/-! ### The two alphabets in the decoder -/

theorem decodeChar_std (x : Nat) : decodeChar (std_char x) = decodeChar x := by
  unfold std_char
  split_ifs with h1 h2
  · subst h1; decide
  · subst h2; decide
  · rfl

theorem std_char_mod (x : Nat) : (std_char x % 256 = 0) ↔ (x % 256 = 0) := by
  unfold std_char
  split_ifs with h1 h2
  · subst h1; decide
  · subst h2; decide
  · rfl

theorem moreInput_std (xs : List Nat) : moreInput (xs.map std_char) = moreInput xs := by
  cases xs with
  | nil => rfl
  | cons x xs =>
      by_cases h : x % 256 = 0
      · simp [moreInput, h, (std_char_mod x).mpr h]
      · have h2 : ¬ std_char x % 256 = 0 := fun h3 => h ((std_char_mod x).mp h3)
        simp only [List.map_cons, moreInput]
        rw [bne_iff_ne.mpr h2, bne_iff_ne.mpr h]

theorem scanSym_std (xs : List Nat) :
    ∀ c v, scanSym (xs.map std_char) c v
      = ((scanSym xs c v).1.map std_char, (scanSym xs c v).2) := by
  induction xs with
  | nil => intro c v; rfl
  | cons x xs ih =>
      intro c v
      simp only [List.map_cons, scanSym, decodeChar_std]
      by_cases h : x % 256 ≠ 0 ∧ v = 0
      · have h2 : std_char x % 256 ≠ 0 ∧ v = 0 :=
          ⟨fun h3 => h.1 ((std_char_mod x).mp h3), h.2⟩
        rw [if_pos h, if_pos h2]
        exact ih _ _
      · have h2 : ¬ (std_char x % 256 ≠ 0 ∧ v = 0) :=
          fun h3 => h ⟨fun h4 => h3.1 ((std_char_mod x).mpr h4), h3.2⟩
        rw [if_neg h, if_neg h2]
        rfl

theorem forLoop_std (n : Nat) :
    ∀ (s : lws_b64state) (xs : List Nat), forLoop n s (xs.map std_char)
      = ((forLoop n s xs).1, (forLoop n s xs).2.map std_char) := by
  induction n with
  | zero => intro s xs; rfl
  | succ n ih =>
      intro s xs
      rw [forLoop, forLoop, moreInput_std]
      by_cases h : s.i < 4 ∧ moreInput xs = true
      · rw [if_pos h, if_pos h]
        simp only [scanSym_std]
        exact ih _ _
      · rw [if_neg h, if_neg h]

theorem decodeLoop_std (final : Bool) (cap fuel : Nat) :
    ∀ (s : lws_b64state) (xs out : List Nat),
      decodeLoop final cap fuel s (xs.map std_char) out
        = (decodeLoop final cap fuel s xs out).map
            (fun r => (r.1, r.2.1.map std_char, r.2.2)) := by
  induction fuel with
  | zero => intro s xs out; rfl
  | succ fuel ih =>
      intro s xs out
      rw [decodeLoop, decodeLoop, moreInput_std]
      by_cases h1 : moreInput xs = true ∧ out.length + 4 < cap
      · rw [if_pos h1, if_pos h1]
        simp only [forLoop_std, moreInput_std]
        by_cases h2 : (forLoop 4 s xs).1.i ≠ 4 ∧ final = false
        · rw [if_pos h2, if_pos h2]
          exact ih _ _ _
        · rw [if_neg h2, if_neg h2]
          exact ih _ _ _
      · rw [if_neg h1, if_neg h1]
        rfl

/-- The decoder does not tell a character from its standard character. -/
theorem decode_stateful_std (s : lws_b64state) (xs : List Nat) (cap : Nat) (final : Bool) :
    lws_b64_decode_stateful s (xs.map std_char) cap final
      = lws_b64_decode_stateful s xs cap final := by
  simp only [lws_b64_decode_stateful, List.length_map, decodeLoop_std]
  cases decodeLoop final cap (xs.length + 2) s xs [] with
  | none => rfl
  | some r => simp

theorem interchangeable_std (a b : Nat) (h : interchangeable a b) : std_char a = std_char b := by
  unfold interchangeable at h
  unfold std_char
  rcases h with h | ⟨h1 | h1, h2 | h2⟩ | ⟨h1 | h1, h2 | h2⟩ <;> subst_vars <;> rfl

/-- C9. Decoder alphabet interchange: when `t` is `s` with any of its `+`
replaced by `-` or the reverse, and any of its `/` replaced by `_` or the
reverse, `lws_b64_decode_stateful` gives the same result on both, from every
state, with every output capacity and `final` flag: the same bytes stored,
the same counts of bytes consumed and produced and the same state. -/
theorem decode_alphabet_interchange (s t : List Nat)
    (h : List.Forall₂ interchangeable s t) (st : lws_b64state) (cap : Nat) (final : Bool) :
    lws_b64_decode_stateful st s cap final = lws_b64_decode_stateful st t cap final := by
  have e : s.map std_char = t.map std_char := by
    induction h with
    | nil => rfl
    | cons hab _ ih => simp only [List.map_cons, interchangeable_std _ _ hab, ih]
  rw [← decode_stateful_std st s, ← decode_stateful_std st t, e]

/-- C9 at `"+/+/"` written as `"-_+/"`, which both decode to three bytes. -/
theorem decode_alphabet_interchange_witness :
    List.Forall₂ interchangeable (bytes "+/+/") (bytes "-_+/") ∧
    lws_b64_decode_stateful lws_b64_decode_state_init (bytes "+/+/") 64 true
      = lws_b64_decode_stateful lws_b64_decode_state_init (bytes "-_+/") 64 true ∧
    (lws_b64_decode_stateful lws_b64_decode_state_init (bytes "-_+/") 64 true).map
      (fun r => r.out) = some [251, 255, 191, 0] := by
  have h : List.Forall₂ interchangeable (bytes "+/+/") (bytes "-_+/") := by
    refine List.Forall₂.cons ?_ (List.Forall₂.cons ?_ (List.Forall₂.cons ?_
      (List.Forall₂.cons ?_ List.Forall₂.nil))) <;> unfold interchangeable <;> decide
  exact ⟨h, decode_alphabet_interchange _ _ h lws_b64_decode_state_init 64 true, by decide⟩

/-! ### Termination of the decoder -/

theorem scanSym_length_le (xs : List Nat) :
    ∀ c v, (scanSym xs c v).1.length ≤ xs.length := by
  induction xs with
  | nil => intro c v; simp [scanSym]
  | cons x xs ih =>
      intro c v
      rw [scanSym]
      split_ifs with h
      · have := ih (decodeChar x).1 (decodeChar x).2
        simp only [List.length_cons]
        omega
      · simp

theorem scanSym_length_lt (xs : List Nat) (c : Nat) (h : moreInput xs = true) :
    (scanSym xs c 0).1.length < xs.length := by
  cases xs with
  | nil => simp [moreInput] at h
  | cons x xs =>
      have hx : x % 256 ≠ 0 := by simpa [moreInput] using h
      rw [scanSym, if_pos ⟨hx, rfl⟩]
      have := scanSym_length_le xs (decodeChar x).1 (decodeChar x).2
      simp only [List.length_cons]
      omega

theorem forLoop_done (n : Nat) (s : lws_b64state) (inp : List Nat) (h : 4 ≤ s.i) :
    forLoop n s inp = (s, inp) := by
  cases n with
  | zero => rfl
  | succ n =>
      rw [forLoop, if_neg]
      intro h2
      omega

theorem forLoop_length_le (n : Nat) :
    ∀ (s : lws_b64state) (inp : List Nat), (forLoop n s inp).2.length ≤ inp.length := by
  induction n with
  | zero => intro s inp; simp [forLoop]
  | succ n ih =>
      intro s inp
      rw [forLoop]
      by_cases h : s.i < 4 ∧ moreInput inp = true
      · rw [if_pos h]
        have h1 := scanSym_length_le inp 0 0
        exact Nat.le_trans (ih _ _) h1
      · rw [if_neg h]

theorem forLoop_length_lt (n : Nat) (s : lws_b64state) (inp : List Nat) (hi : s.i < 4)
    (hm : moreInput inp = true) : (forLoop (n + 1) s inp).2.length < inp.length := by
  rw [forLoop, if_pos ⟨hi, hm⟩]
  have h1 := scanSym_length_lt inp 0 hm
  exact Nat.lt_of_le_of_lt (forLoop_length_le n _ _) h1

theorem forLoop_i_le (n : Nat) :
    ∀ (s : lws_b64state) (inp : List Nat), s.i ≤ 4 → (forLoop n s inp).1.i ≤ 4 := by
  induction n with
  | zero => intro s inp h; simpa [forLoop] using h
  | succ n ih =>
      intro s inp hs
      rw [forLoop]
      by_cases h : s.i < 4 ∧ moreInput inp = true
      · rw [if_pos h]
        apply ih
        simp only
        split_ifs <;> simp <;> omega
      · rw [if_neg h]
        exact hs

theorem emitGroup_i (s : lws_b64state) (atEnd : Bool) : (emitGroup s atEnd).1.i = 0 := by
  simp only [emitGroup]
  split_ifs <;> rfl

/-- The outer loop ends within the passes it is given, from a state with
`s->i <= 4`, or with `final`. -/
theorem decodeLoop_returns (final : Bool) (cap fuel : Nat) :
    ∀ (s : lws_b64state) (inp out : List Nat),
      (s.i < 4 → inp.length + 1 ≤ fuel) →
      (4 ≤ s.i → (s.i = 4 ∨ final = true) ∧ inp.length + 2 ≤ fuel) →
      ∃ r, decodeLoop final cap fuel s inp out = some r := by
  induction fuel with
  | zero =>
      intro s inp out h1 h2
      by_cases h : s.i < 4
      · have := h1 h; omega
      · have := (h2 (by omega)).2; omega
  | succ fuel ih =>
      intro s inp out h1 h2
      rw [decodeLoop]
      by_cases hc : moreInput inp = true ∧ out.length + 4 < cap
      · rw [if_pos hc]
        by_cases hi : s.i < 4
        · have hlt : (forLoop 4 s inp).2.length < inp.length :=
            forLoop_length_lt 3 s inp hi hc.1
          have hle := forLoop_i_le 4 s inp (by omega)
          have hf := h1 hi
          by_cases h3 : (forLoop 4 s inp).1.i ≠ 4 ∧ final = false
          · rw [if_pos h3]
            apply ih
            · intro _; omega
            · intro h4
              have := h3.1
              omega
          · rw [if_neg h3]
            apply ih
            · intro _; omega
            · intro h4
              rw [emitGroup_i] at h4
              omega
        · have hd := forLoop_done 4 s inp (by omega)
          obtain ⟨h5, h6⟩ := h2 (by omega)
          have h3 : ¬ ((forLoop 4 s inp).1.i ≠ 4 ∧ final = false) := by
            rw [hd]
            intro h7
            rcases h5 with h5 | h5
            · exact h7.1 h5
            · rw [h5] at h7
              exact absurd h7.2 (by simp)
          rw [if_neg h3]
          apply ih
          · intro _
            rw [hd]
            simp only
            omega
          · intro h4
            rw [emitGroup_i] at h4
            omega
      · rw [if_neg hc]
        exact ⟨_, rfl⟩

/-- A call of `lws_b64_decode_stateful` returns when the state has
`s->i <= 4`, as every state the decoder leaves has, or when `final` is set. -/
theorem decode_stateful_returns (s : lws_b64state) (inp : List Nat) (cap : Nat)
    (final : Bool) (h : s.i ≤ 4 ∨ final = true) :
    ∃ r, lws_b64_decode_stateful s inp cap final = some r := by
  obtain ⟨r, hr⟩ := decodeLoop_returns final cap (inp.length + 2) s inp []
    (fun _ => by omega)
    (fun h4 => ⟨by rcases h with h | h
                   · exact Or.inl (by omega)
                   · exact Or.inr h, by omega⟩)
  obtain ⟨s1, rest, out⟩ := r
  simp only [lws_b64_decode_stateful, hr]
  exact ⟨_, rfl⟩

/-- With `s->i > 4`, no `final`, input left and room in the output, every
pass of the outer loop is a `continue` that changes nothing: the loop does
not end. -/
theorem decodeLoop_spins (cap fuel : Nat) (s : lws_b64state) (inp out : List Nat)
    (hi : 4 < s.i) (hm : moreInput inp = true) (hc : out.length + 4 < cap) :
    decodeLoop false cap fuel s inp out = none := by
  induction fuel with
  | zero => rfl
  | succ fuel ih =>
      rw [decodeLoop, if_pos ⟨hm, hc⟩]
      have hd := forLoop_done 4 s inp (by omega)
      have h3 : (forLoop 4 s inp).1.i ≠ 4 ∧ false = false := by
        rw [hd]
        exact ⟨by simp only; omega, rfl⟩
      rw [if_pos h3, hd]
      exact ih

/-! ### Room for the sentinel -/

theorem emitGroup_length (s : lws_b64state) (atEnd : Bool) :
    (emitGroup s atEnd).2.length ≤ 3 := by
  simp only [emitGroup]
  split_ifs <;> simp

/-- The outer loop keeps one byte of the capacity free. -/
theorem decodeLoop_room (final : Bool) (cap fuel : Nat) :
    ∀ (s : lws_b64state) (inp out : List Nat) (r : lws_b64state × List Nat × List Nat),
      decodeLoop final cap fuel s inp out = some r → out.length + 1 ≤ cap →
      r.2.2.length + 1 ≤ cap := by
  induction fuel with
  | zero => intro s inp out r h; simp [decodeLoop] at h
  | succ fuel ih =>
      intro s inp out r h hc
      rw [decodeLoop] at h
      by_cases h1 : moreInput inp = true ∧ out.length + 4 < cap
      · rw [if_pos h1] at h
        by_cases h2 : (forLoop 4 s inp).1.i ≠ 4 ∧ final = false
        · rw [if_pos h2] at h
          exact ih _ _ _ r h hc
        · rw [if_neg h2] at h
          refine ih _ _ _ r h ?_
          have := emitGroup_length (forLoop 4 s inp).1 (!moreInput (forLoop 4 s inp).2)
          rw [List.length_append]
          omega
      · rw [if_neg h1] at h
        simp only [Option.some.injEq] at h
        rw [← h]
        exact hc

/-- With a capacity of at least one byte, a call of `lws_b64_decode_stateful`
that returns has produced `p` bytes with `p + 1` within the capacity, and has
stored `p + 1` bytes. -/
theorem decode_sentinel_in_buffer (s : lws_b64state) (inp : List Nat) (cap : Nat)
    (final : Bool) (r : DecodeResult) (hc : 1 ≤ cap)
    (h : lws_b64_decode_stateful s inp cap final = some r) :
    r.out_size + 1 ≤ cap ∧ r.out.length = r.out_size + 1 := by
  simp only [lws_b64_decode_stateful] at h
  split at h
  · exact absurd h (by simp)
  · rename_i s1 rest out heq
    have hb := decodeLoop_room final cap _ s inp [] _ heq (by simpa using hc)
    simp only [Option.some.injEq] at h
    rw [← h]
    exact ⟨hb, by simp⟩

/-! ### Where the code departs from the specification -/

/-- C6. Decoder resumability, as the code has it, on `"QQ=="`, the encoding
of the byte `A`: one call with `final` produces the byte `[65]`; split after
the third character, the first call (without `final`) produces nothing and
the second call, on `"="` with `final`, produces the two bytes `[65, 0]`;
split after the fourth character, the second call has no input and produces
nothing, the group being left in the state. -/
theorem decode_split_in_padding :
    (lws_b64_encode_string [65] 64).2 = bytes "QQ==" ++ [0] ∧
    lws_b64_decode_stateful lws_b64_decode_state_init (bytes "QQ==") 64 true
      = some { state := { quad0 := 16, quad1 := 16, quad2 := 0, quad3 := 0, done := 1,
                          len := 0, i := 0, c := 61 },
               in_len := 4, out_size := 1, out := [65, 0] } ∧
    lws_b64_decode_stateful lws_b64_decode_state_init (bytes "QQ=") 64 false
      = some { state := { quad0 := 16, quad1 := 16, quad2 := 0, quad3 := 0, done := 0,
                          len := 3, i := 3, c := 61 },
               in_len := 3, out_size := 0, out := [0] } ∧
    lws_b64_decode_stateful
        { quad0 := 16, quad1 := 16, quad2 := 0, quad3 := 0, done := 0, len := 3, i := 3,
          c := 61 } (bytes "=") 64 true
      = some { state := { quad0 := 16, quad1 := 16, quad2 := 0, quad3 := 0, done := 2,
                          len := 0, i := 0, c := 61 },
               in_len := 1, out_size := 2, out := [65, 0, 0] } ∧
    lws_b64_decode_stateful lws_b64_decode_state_init (bytes "QQ==") 64 false
      = some { state := { quad0 := 16, quad1 := 16, quad2 := 0, quad3 := 0, done := 0,
                          len := 3, i := 3, c := 61 },
               in_len := 4, out_size := 0, out := [0] } ∧
    lws_b64_decode_stateful
        { quad0 := 16, quad1 := 16, quad2 := 0, quad3 := 0, done := 0, len := 3, i := 3,
          c := 61 } [] 64 true
      = some { state := { quad0 := 16, quad1 := 16, quad2 := 0, quad3 := 0, done := 0,
                          len := 3, i := 3, c := 61 },
               in_len := 0, out_size := 0, out := [0] } := by
  decide

/-- C7. The one-shot decoder never returns -1: the eight characters
`"QUJDQUJD"` with `out_size = 6` are consumed only by half and the call
returns 3; `"QUJD"` with `out_size = 4` is not consumed at all and the call
returns 0, as for an empty input. -/
theorem decode_string_never_fails :
    lws_b64_decode_string (bytes "QUJDQUJD") 6 = some (3, [65, 66, 67, 0]) ∧
    lws_b64_decode_string_len (bytes "QUJDQUJD") 8 6 = some (3, [65, 66, 67, 0]) ∧
    lws_b64_decode_string (bytes "QUJD") 4 = some (0, [0]) ∧
    lws_b64_decode_string [] 4 = some (0, [0]) ∧
    ∀ (inp : List Nat) (in_len out_size : Int) (r : Int × List Nat),
      _lws_b64_decode_string inp in_len out_size = some r → r.1 ≠ -1 ∧ 0 ≤ r.1 := by
  refine ⟨by decide, by decide, by decide, by decide, ?_⟩
  intro inp in_len out_size r h
  simp only [_lws_b64_decode_string] at h
  split at h
  · exact absurd h (by simp)
  · rename_i d _
    simp only [Option.some.injEq] at h
    rw [← h]
    by_cases h0 : d.in_len = 0
    · simp [h0]
    · simp only [if_neg h0]
      omega

/-- C8. A byte outside the alphabets at the end of the input is not skipped:
`"QQ=="` decodes to the byte `[65]`, and `"QQ=="` followed by a line feed
(10) decodes to the two bytes `[65, 0]`. -/
theorem decode_trailing_noise :
    lws_b64_decode_string (bytes "QQ==") 64 = some (1, [65, 0]) ∧
    lws_b64_decode_string (bytes "QQ==" ++ [10]) 64 = some (2, [65, 0, 0]) ∧
    lws_b64_decode_string (bytes "QUI=") 64 = some (2, [65, 66, 0]) ∧
    lws_b64_decode_string (bytes "QUI=" ++ [10]) 64 = some (3, [65, 66, 0, 0]) := by
  decide

/-- C10. With an output capacity of 0 the decoder stores its `'\0'` at
`out[0]`: whatever the state, the input and the `final` flag, the call
produces `p = 0` bytes and stores one byte, so `p + 1 = 1 > 0`. -/
theorem decode_sentinel_capacity_zero (s : lws_b64state) (inp : List Nat) (final : Bool) :
    lws_b64_decode_stateful s inp 0 final
      = some { state := s, in_len := 0, out_size := 0, out := [0] } := by
  simp [lws_b64_decode_stateful, decodeLoop]

/-! ### TLS client handshake -/

/-- C11. Phase 1 result mapping: `lws_ssl_client_connect1` calls the TLS
engine once, and for its result: `ERROR` returns -1, registers nothing and
leaves the connection as it was; `DONE` returns 1, registers nothing and
leaves the connection as it was; `MORE_SERVICE_WRITE` registers for writable
once, sets the state to `LRS_WAITING_SSL` and returns 0; `MORE_SERVICE_READ`
registers nothing, sets the state to `LRS_WAITING_SSL` and returns 0;
`MORE_SERVICE` registers nothing, leaves the connection as it was and
returns 0. -/
theorem connect1_result_mapping (wsi : lws) :
    (∀ n, engine_calls (lws_ssl_client_connect1 n wsi).calls = 1) ∧
    ((lws_ssl_client_connect1 .LWS_SSL_CAPABLE_ERROR wsi).ret = -1 ∧
      writable_registrations (lws_ssl_client_connect1 .LWS_SSL_CAPABLE_ERROR wsi).calls = 0 ∧
      (lws_ssl_client_connect1 .LWS_SSL_CAPABLE_ERROR wsi).wsi = wsi) ∧
    ((lws_ssl_client_connect1 .LWS_SSL_CAPABLE_DONE wsi).ret = 1 ∧
      writable_registrations (lws_ssl_client_connect1 .LWS_SSL_CAPABLE_DONE wsi).calls = 0 ∧
      (lws_ssl_client_connect1 .LWS_SSL_CAPABLE_DONE wsi).wsi = wsi) ∧
    ((lws_ssl_client_connect1 .LWS_SSL_CAPABLE_MORE_SERVICE_WRITE wsi).ret = 0 ∧
      writable_registrations
        (lws_ssl_client_connect1 .LWS_SSL_CAPABLE_MORE_SERVICE_WRITE wsi).calls = 1 ∧
      (lws_ssl_client_connect1 .LWS_SSL_CAPABLE_MORE_SERVICE_WRITE wsi).wsi.state
        = .LRS_WAITING_SSL) ∧
    ((lws_ssl_client_connect1 .LWS_SSL_CAPABLE_MORE_SERVICE_READ wsi).ret = 0 ∧
      writable_registrations
        (lws_ssl_client_connect1 .LWS_SSL_CAPABLE_MORE_SERVICE_READ wsi).calls = 0 ∧
      (lws_ssl_client_connect1 .LWS_SSL_CAPABLE_MORE_SERVICE_READ wsi).wsi.state
        = .LRS_WAITING_SSL) ∧
    ((lws_ssl_client_connect1 .LWS_SSL_CAPABLE_MORE_SERVICE wsi).ret = 0 ∧
      writable_registrations
        (lws_ssl_client_connect1 .LWS_SSL_CAPABLE_MORE_SERVICE wsi).calls = 0 ∧
      (lws_ssl_client_connect1 .LWS_SSL_CAPABLE_MORE_SERVICE wsi).wsi = wsi) := by
  refine ⟨?_, ?_, ?_, ?_, ?_, ?_⟩
  · intro n
    cases n <;> rfl
  all_goals exact ⟨rfl, rfl, rfl⟩

/-- C12. Phase 2 never reports success without a passed verification:
`lws_ssl_client_connect2` calls `lws_tls_client_confirm_peer_cert` once when
the state is not `LRS_WAITING_SSL` or the engine returns `DONE`, and not at
all otherwise; it returns 1 if and only if it made that call and the call
returned 0 (the certificate passed); when it made the call and the call
failed it returns -1. -/
theorem connect2_success_needs_verification (n : lws_ssl_capable_status) (confirm : Int)
    (wsi : lws) (len : Int) :
    confirmations (lws_ssl_client_connect2 n confirm wsi len).calls
      = (if wsi.state ≠ .LRS_WAITING_SSL ∨ n = .LWS_SSL_CAPABLE_DONE then 1 else 0) ∧
    ((lws_ssl_client_connect2 n confirm wsi len).ret = 1 ↔
      confirmations (lws_ssl_client_connect2 n confirm wsi len).calls = 1 ∧ confirm = 0) ∧
    (confirmations (lws_ssl_client_connect2 n confirm wsi len).calls = 1 → confirm ≠ 0 →
      (lws_ssl_client_connect2 n confirm wsi len).ret = -1) := by
  obtain ⟨st⟩ := wsi
  by_cases hc : confirm = 0
  · subst hc
    cases st <;> cases n <;>
      simp [lws_ssl_client_connect2, connect2_step, confirmations]
  · cases st <;> cases n <;>
      simp [lws_ssl_client_connect2, connect2_step, confirmations, hc]

/-- C12 at a connection waiting on the handshake, the engine answering `DONE`
and a certificate that fails. -/
theorem connect2_success_needs_verification_witness :
    confirmations (lws_ssl_client_connect2 .LWS_SSL_CAPABLE_DONE 1
      { state := .LRS_WAITING_SSL } 128).calls = 1 ∧ (1 : Int) ≠ 0 ∧
    (lws_ssl_client_connect2 .LWS_SSL_CAPABLE_DONE 1 { state := .LRS_WAITING_SSL } 128).ret
      = -1 :=
  ⟨by decide, by decide,
   (connect2_success_needs_verification .LWS_SSL_CAPABLE_DONE 1 { state := .LRS_WAITING_SSL }
      128).2.2 (by decide) (by decide)⟩

/-- C13. Phase 2 handshake step: `lws_ssl_client_connect2` calls the TLS
engine once when the connection state is `LRS_WAITING_SSL` on entry and not
at all otherwise; in that state the engine results `MORE_SERVICE_WRITE`,
`MORE_SERVICE_READ` and `MORE_SERVICE` each return 0 with the state still
`LRS_WAITING_SSL` and without a certificate check, `MORE_SERVICE_WRITE`
registering for writable once and the other two not at all, and the engine
result `ERROR` returns -1, the last call made being
`lws_snprintf(errbuf, len, "client connect failed")`. -/
theorem connect2_handshake_step (n : lws_ssl_capable_status) (confirm : Int) (wsi : lws)
    (len : Int) :
    engine_calls (lws_ssl_client_connect2 n confirm wsi len).calls
      = (if wsi.state = .LRS_WAITING_SSL then 1 else 0) ∧
    (wsi.state = .LRS_WAITING_SSL →
      (n = .LWS_SSL_CAPABLE_MORE_SERVICE_WRITE →
        (lws_ssl_client_connect2 n confirm wsi len).ret = 0 ∧
        (lws_ssl_client_connect2 n confirm wsi len).wsi.state = .LRS_WAITING_SSL ∧
        writable_registrations (lws_ssl_client_connect2 n confirm wsi len).calls = 1 ∧
        confirmations (lws_ssl_client_connect2 n confirm wsi len).calls = 0) ∧
      (n = .LWS_SSL_CAPABLE_MORE_SERVICE_READ →
        (lws_ssl_client_connect2 n confirm wsi len).ret = 0 ∧
        (lws_ssl_client_connect2 n confirm wsi len).wsi.state = .LRS_WAITING_SSL ∧
        writable_registrations (lws_ssl_client_connect2 n confirm wsi len).calls = 0 ∧
        confirmations (lws_ssl_client_connect2 n confirm wsi len).calls = 0) ∧
      (n = .LWS_SSL_CAPABLE_MORE_SERVICE →
        (lws_ssl_client_connect2 n confirm wsi len).ret = 0 ∧
        (lws_ssl_client_connect2 n confirm wsi len).wsi.state = .LRS_WAITING_SSL ∧
        writable_registrations (lws_ssl_client_connect2 n confirm wsi len).calls = 0 ∧
        confirmations (lws_ssl_client_connect2 n confirm wsi len).calls = 0) ∧
      (n = .LWS_SSL_CAPABLE_ERROR →
        (lws_ssl_client_connect2 n confirm wsi len).ret = -1 ∧
        (lws_ssl_client_connect2 n confirm wsi len).calls.getLast?
          = some (tls_call.lws_snprintf len "client connect failed") ∧
        writable_registrations (lws_ssl_client_connect2 n confirm wsi len).calls = 0 ∧
        confirmations (lws_ssl_client_connect2 n confirm wsi len).calls = 0)) := by
  obtain ⟨st⟩ := wsi
  by_cases hc : confirm = 0
  · subst hc
    cases st <;> cases n <;>
      simp [lws_ssl_client_connect2, connect2_step, confirmations, engine_calls,
        writable_registrations]
  · cases st <;> cases n <;>
      simp [lws_ssl_client_connect2, connect2_step, confirmations, engine_calls,
        writable_registrations, hc]

/-- C13 at a connection waiting on the handshake and the engine answering
`ERROR`, with a buffer of 128 bytes. -/
theorem connect2_handshake_step_witness :
    (lws_ssl_client_connect2 .LWS_SSL_CAPABLE_ERROR 0 { state := .LRS_WAITING_SSL } 128).ret
      = -1 ∧
    (lws_ssl_client_connect2 .LWS_SSL_CAPABLE_ERROR 0 { state := .LRS_WAITING_SSL }
        128).calls.getLast? = some (tls_call.lws_snprintf 128 "client connect failed") ∧
    engine_calls
      (lws_ssl_client_connect2 .LWS_SSL_CAPABLE_ERROR 0 { state := .LRS_WAITING_SSL }
        128).calls = 1 := by
  have h := connect2_handshake_step .LWS_SSL_CAPABLE_ERROR 0 { state := .LRS_WAITING_SSL } 128
  exact ⟨(h.2 rfl).2.2.2 rfl |>.1, (h.2 rfl).2.2.2 rfl |>.2.1, by decide⟩

/-- C14, counterexample: from a connection awaiting its socket, with a buffer
of 128 bytes and a certificate that passes, the state after the step with
`DONE` is `LRS_WAITING_SSL`, not `ESTABLISHED`; the step returns 1. -/
theorem scripted_handshake_state_not_established :
    (drive_handshake 0 128 { state := .AWAITING_SOCKET }
        [.LWS_SSL_CAPABLE_MORE_SERVICE_WRITE, .LWS_SSL_CAPABLE_MORE_SERVICE_READ,
          .LWS_SSL_CAPABLE_DONE]).map (fun r => r.wsi.state)
      = [.LRS_WAITING_SSL, .LRS_WAITING_SSL, .LRS_WAITING_SSL] ∧
    (drive_handshake 0 128 { state := .AWAITING_SOCKET }
        [.LWS_SSL_CAPABLE_MORE_SERVICE_WRITE, .LWS_SSL_CAPABLE_MORE_SERVICE_READ,
          .LWS_SSL_CAPABLE_DONE]).map (fun r => r.wsi.state)
      ≠ [.LRS_WAITING_SSL, .LRS_WAITING_SSL, .ESTABLISHED] ∧
    (drive_handshake 0 128 { state := .AWAITING_SOCKET }
        [.LWS_SSL_CAPABLE_MORE_SERVICE_WRITE, .LWS_SSL_CAPABLE_MORE_SERVICE_READ,
          .LWS_SSL_CAPABLE_DONE]).map (fun r => r.ret) = [0, 0, 1] := by
  decide

/-- C14, amended. Scripted handshake: from a connection that is not in the
state `LRS_WAITING_SSL`, `lws_ssl_client_connect1` and then
`lws_ssl_client_connect2` on each later wake-up, with the engine results
`MORE_SERVICE_WRITE`, `MORE_SERVICE_READ`, `DONE` and a certificate that
passes, return 0, 0 and 1; the connection state is `LRS_WAITING_SSL` after
each of the three steps (the drivers never set another state: the return
value 1 tells the caller that the session is established); the run registers
for writable once, in the first step. -/
theorem scripted_handshake (wsi : lws) (len : Int) (h : wsi.state ≠ .LRS_WAITING_SSL) :
    (drive_handshake 0 len wsi
        [.LWS_SSL_CAPABLE_MORE_SERVICE_WRITE, .LWS_SSL_CAPABLE_MORE_SERVICE_READ,
          .LWS_SSL_CAPABLE_DONE]).map
        (fun r => (r.ret, r.wsi.state, writable_registrations r.calls))
      = [(0, .LRS_WAITING_SSL, 1), (0, .LRS_WAITING_SSL, 0), (1, .LRS_WAITING_SSL, 0)] ∧
    writable_registrations
      ((drive_handshake 0 len wsi
        [.LWS_SSL_CAPABLE_MORE_SERVICE_WRITE, .LWS_SSL_CAPABLE_MORE_SERVICE_READ,
          .LWS_SSL_CAPABLE_DONE]).map (fun r => r.calls)).flatten = 1 := by
  obtain ⟨st⟩ := wsi
  cases st <;>
    simp [drive_handshake, drive_connect2, lws_ssl_client_connect1, lws_ssl_client_connect2,
      connect2_step, writable_registrations] at h ⊢

/-- C14, amended, at a connection awaiting its socket and a buffer of 128
bytes. -/
theorem scripted_handshake_witness :
    (lws.mk .AWAITING_SOCKET).state ≠ .LRS_WAITING_SSL ∧
    (drive_handshake 0 128 { state := .AWAITING_SOCKET }
        [.LWS_SSL_CAPABLE_MORE_SERVICE_WRITE, .LWS_SSL_CAPABLE_MORE_SERVICE_READ,
          .LWS_SSL_CAPABLE_DONE]).map
        (fun r => (r.ret, r.wsi.state, writable_registrations r.calls))
      = [(0, .LRS_WAITING_SSL, 1), (0, .LRS_WAITING_SSL, 0), (1, .LRS_WAITING_SSL, 0)] :=
  ⟨by decide, (scripted_handshake { state := .AWAITING_SOCKET } 128 (by decide)).1⟩

/-! ### Client TLS context of a vhost -/

/-- The paths of `lws_context_init_client_ssl`, in the order of its tests. -/
theorem init_paths (created : Int × Option Nat) (info : lws_context_creation_info)
    (vhost : lws_vhost) :
    lws_context_init_client_ssl created info vhost =
      if vhost.adopt_apply_listen_accept_config = true ∨ info.do_ssl_global_init = false ∨
          vhost.ssl_client_ctx.isSome = true then
        { ret := 0, vhost := vhost, calls := [] }
      else if info.provided_client_ssl_ctx.isSome = true then
        { ret := 0,
          vhost := { vhost with ssl_client_ctx := info.provided_client_ssl_ctx,
                                user_supplied_ssl_ctx := 1 },
          calls := [] }
      else if created.1 ≠ 0 then
        { ret := 1, vhost := { vhost with ssl_client_ctx := created.2 },
          calls := [construct_call info vhost] }
      else
        { ret := 0, vhost := { vhost with ssl_client_ctx := created.2 },
          calls := [construct_call info vhost,
            init_call.callback_load_extra_client_verify_certs created.2] } := by
  by_cases h1 : vhost.adopt_apply_listen_accept_config = true
  · simp [lws_context_init_client_ssl, h1]
  · by_cases h2 : info.do_ssl_global_init = false
    · simp [lws_context_init_client_ssl, h1, h2]
    · by_cases h3 : vhost.ssl_client_ctx.isSome = true
      · simp [lws_context_init_client_ssl, h1, h2, h3]
      · by_cases h4 : info.provided_client_ssl_ctx.isSome = true
        · simp [lws_context_init_client_ssl, h1, h2, h3, h4]
        · by_cases h5 : created.1 ≠ 0
          · simp only [lws_context_init_client_ssl, h1, h2, h3, h4, h5, construct_call,
              resolved_path, or_self, if_false, if_true, not_false_eq_true, ne_eq]
            simp
          · simp only [lws_context_init_client_ssl, h1, h2, h3, h4, h5, construct_call,
              resolved_path, or_self, if_false, if_true, not_false_eq_true, ne_eq]
            simp

/-- C15, counterexample: a configuration that supplies the context 9 without
`LWS_SERVER_OPTION_DO_SSL_GLOBAL_INIT`, on a vhost with no client context
that is not deferred: the call returns 0 and leaves the vhost as it was,
without a client context and with `user_supplied_ssl_ctx = 0`. -/
theorem provided_context_not_adopted_without_global_init :
    lws_context_init_client_ssl (0, some 5)
      { ssl_private_key_filepath := none, ssl_cert_filepath := none, ssl_ca_filepath := none,
        ssl_cipher_list := none, client_ssl_private_key_filepath := none,
        client_ssl_cert_filepath := none, client_ssl_ca_filepath := none,
        client_ssl_cipher_list := none, client_ssl_ca_mem := none,
        client_ssl_ca_mem_len := 0, client_ssl_cert_mem := none,
        client_ssl_cert_mem_len := 0, do_ssl_global_init := false,
        provided_client_ssl_ctx := some 9 }
      { adopt_apply_listen_accept_config := false, ssl_ctx := none, ssl_client_ctx := none,
        user_supplied_ssl_ctx := 0 }
    = { ret := 0,
        vhost := { adopt_apply_listen_accept_config := false, ssl_ctx := none,
                   ssl_client_ctx := none, user_supplied_ssl_ctx := 0 },
        calls := [] } := by
  decide

/-- C15, amended. External context adoption: for every configuration that
supplies a client TLS context and has `LWS_SERVER_OPTION_DO_SSL_GLOBAL_INIT`
set, on a vhost that has no client context yet and is not deferred to adopt,
`lws_context_init_client_ssl` sets the client context of the vhost to the
supplied one, sets `user_supplied_ssl_ctx = 1`, returns 0, changes nothing
else in the vhost, and calls neither the constructor nor the callback. -/
theorem provided_context_adopted (created : Int × Option Nat)
    (info : lws_context_creation_info) (vhost : lws_vhost)
    (hp : info.provided_client_ssl_ctx.isSome = true)
    (hg : info.do_ssl_global_init = true)
    (hc : vhost.ssl_client_ctx = none)
    (hd : vhost.adopt_apply_listen_accept_config = false) :
    lws_context_init_client_ssl created info vhost
      = { ret := 0,
          vhost := { vhost with ssl_client_ctx := info.provided_client_ssl_ctx,
                                user_supplied_ssl_ctx := 1 },
          calls := [] } := by
  simp [lws_context_init_client_ssl, hp, hg, hc, hd]

/-- C15, amended, at a configuration that supplies the context 9. -/
theorem provided_context_adopted_witness :
    lws_context_init_client_ssl (0, some 5)
      { ssl_private_key_filepath := none, ssl_cert_filepath := none, ssl_ca_filepath := none,
        ssl_cipher_list := none, client_ssl_private_key_filepath := none,
        client_ssl_cert_filepath := none, client_ssl_ca_filepath := none,
        client_ssl_cipher_list := none, client_ssl_ca_mem := none,
        client_ssl_ca_mem_len := 0, client_ssl_cert_mem := none,
        client_ssl_cert_mem_len := 0, do_ssl_global_init := true,
        provided_client_ssl_ctx := some 9 }
      { adopt_apply_listen_accept_config := false, ssl_ctx := none, ssl_client_ctx := none,
        user_supplied_ssl_ctx := 0 }
    = { ret := 0,
        vhost := { adopt_apply_listen_accept_config := false, ssl_ctx := none,
                   ssl_client_ctx := some 9, user_supplied_ssl_ctx := 1 },
        calls := [] } :=
  provided_context_adopted (0, some 5) _ _ rfl rfl rfl rfl

/-- With a client context in the vhost the initialiser does nothing. -/
theorem init_noop (created : Int × Option Nat) (info : lws_context_creation_info)
    (vhost : lws_vhost) (h : vhost.ssl_client_ctx.isSome = true) :
    lws_context_init_client_ssl created info vhost
      = { ret := 0, vhost := vhost, calls := [] } := by
  rw [init_paths, if_pos (Or.inr (Or.inr h))]

/-- A call that built a context leaves a client context in the vhost, when a
constructor that returns 0 leaves one. -/
theorem constructed_has_context (created : Int × Option Nat)
    (info : lws_context_creation_info) (vhost : lws_vhost)
    (ha : created.1 = 0 → created.2.isSome = true)
    (h : constructed (lws_context_init_client_ssl created info vhost) = true) :
    (lws_context_init_client_ssl created info vhost).vhost.ssl_client_ctx.isSome = true := by
  rw [init_paths] at h ⊢
  split_ifs at h ⊢ with h1 h2 h3
  · simp [constructed] at h
  · simp [constructed] at h
  · simp [constructed] at h
  · exact ha (by simpa using h3)

/-- On a vhost with a client context no call of a sequence builds one. -/
theorem init_sequence_noop (seq : List ((Int × Option Nat) × lws_context_creation_info)) :
    ∀ vhost : lws_vhost, vhost.ssl_client_ctx.isSome = true →
      ((init_sequence vhost seq).2.filter constructed) = [] := by
  induction seq with
  | nil => intro vhost _; rfl
  | cons p rest ih =>
      intro vhost h
      obtain ⟨created, info⟩ := p
      simp only [init_sequence, init_noop created info vhost h]
      rw [List.filter_cons_of_neg (by simp [constructed])]
      exact ih vhost h

/-- Over a sequence of calls at most one builds a context, when a
constructor that returns 0 leaves a context in the vhost. -/
theorem init_sequence_once (seq : List ((Int × Option Nat) × lws_context_creation_info)) :
    ∀ vhost : lws_vhost, (∀ p ∈ seq, p.1.1 = 0 → p.1.2.isSome = true) →
      ((init_sequence vhost seq).2.filter constructed).length ≤ 1 := by
  induction seq with
  | nil => intro vhost _; simp [init_sequence]
  | cons p rest ih =>
      intro vhost ha
      obtain ⟨created, info⟩ := p
      simp only [init_sequence]
      by_cases hc : constructed (lws_context_init_client_ssl created info vhost) = true
      · have hv := constructed_has_context created info vhost
          (ha (created, info) (by simp)) hc
        rw [List.filter_cons_of_pos hc, init_sequence_noop rest _ hv]
        simp
      · rw [List.filter_cons_of_neg hc]
        exact ih _ (fun q hq => ha q (by simp [hq]))

/-- C16. Initializer idempotence: for every configuration, when the vhost
already has a client TLS context, `lws_context_init_client_ssl` returns 0 and
leaves the vhost as it was (client context and `user_supplied_ssl_ctx`
included), without a call of the constructor or of the callback; hence over
every sequence of calls on one vhost at most one call builds a context, a
constructor that returns 0 being one that has stored a context in the
vhost. -/
theorem init_idempotent :
    (∀ (created : Int × Option Nat) (info : lws_context_creation_info) (vhost : lws_vhost),
      vhost.ssl_client_ctx.isSome = true →
      lws_context_init_client_ssl created info vhost
        = { ret := 0, vhost := vhost, calls := [] }) ∧
    (∀ (vhost : lws_vhost) (seq : List ((Int × Option Nat) × lws_context_creation_info)),
      (∀ p ∈ seq, p.1.1 = 0 → p.1.2.isSome = true) →
      ((init_sequence vhost seq).2.filter constructed).length ≤ 1) :=
  ⟨init_noop, fun vhost seq h => init_sequence_once seq vhost h⟩

/-- C16 on a vhost that has the client context 3, and on three calls of which
the first fails to build a context and the second builds one. -/
theorem init_idempotent_witness :
    lws_context_init_client_ssl (0, some 5) example_info
        { example_vhost with ssl_client_ctx := some 3 }
      = { ret := 0, vhost := { example_vhost with ssl_client_ctx := some 3 }, calls := [] } ∧
    (init_sequence example_vhost
        [((1, none), example_info), ((0, some 5), example_info),
          ((0, some 6), example_info)]).2.map constructed = [false, true, false] ∧
    ((init_sequence example_vhost
        [((1, none), example_info), ((0, some 5), example_info),
          ((0, some 6), example_info)]).2.filter constructed).length ≤ 1 :=
  ⟨init_idempotent.1 (0, some 5) example_info _ rfl, by decide,
   init_idempotent.2 example_vhost _ (by decide)⟩

/-- C17, counterexample: on a vhost that has the server TLS context 7, with a
configuration that gives `ssl_ca_filepath` and `ssl_private_key_filepath` and
no client-specific CA or key path, the constructor is called with `NULL` for
the CA path and the key path, not with the legacy values. -/
theorem legacy_paths_dropped_with_server_context :
    example_info.client_ssl_ca_filepath = none ∧
    example_info.ssl_ca_filepath = some "ca.pem" ∧
    example_info.client_ssl_private_key_filepath = none ∧
    example_info.ssl_private_key_filepath = some "server.key" ∧
    (lws_context_init_client_ssl (0, some 5) example_info
        { example_vhost with ssl_ctx := some 7 }).calls
      = [init_call.lws_tls_client_create_vhost_context (some "HIGH") none none 0
           (some "client.pem") none 0 none,
         init_call.callback_load_extra_client_verify_certs (some 5)] := by
  decide

/-- The calls of the initialiser: none, or the constructor alone, or the
constructor and then the callback. -/
theorem init_calls (created : Int × Option Nat) (info : lws_context_creation_info)
    (vhost : lws_vhost) :
    (lws_context_init_client_ssl created info vhost).calls = [] ∨
    ((lws_context_init_client_ssl created info vhost).calls = [construct_call info vhost] ∧
      created.1 ≠ 0 ∧ (lws_context_init_client_ssl created info vhost).ret = 1) ∨
    ((lws_context_init_client_ssl created info vhost).calls
        = [construct_call info vhost,
            init_call.callback_load_extra_client_verify_certs created.2] ∧
      created.1 = 0 ∧ (lws_context_init_client_ssl created info vhost).ret = 0 ∧
      (lws_context_init_client_ssl created info vhost).vhost.ssl_client_ctx = created.2) := by
  rw [init_paths]
  split_ifs with h1 h2 h3
  · exact Or.inl rfl
  · exact Or.inl rfl
  · exact Or.inr (Or.inl ⟨rfl, h3, rfl⟩)
  · exact Or.inr (Or.inr ⟨rfl, by simpa using h3, rfl, rfl⟩)

/-- C17, amended. Settings resolution: in every call of
`lws_context_init_client_ssl` that reaches the constructor, the cipher list
passed is `client_ssl_cipher_list` when that is given and `ssl_cipher_list`
otherwise; each of the certificate path, the private-key path and the CA path
passed is the client-specific value when that is given, and otherwise the
legacy `ssl_*` value when the vhost has no server TLS context
(`vhost->tls.ssl_ctx` is `NULL`) and `NULL` when it has one. -/
theorem settings_resolution (created : Int × Option Nat) (info : lws_context_creation_info)
    (vhost : lws_vhost) (cipher_list ca_filepath cert_filepath key_filepath : Option String)
    (ca_mem cert_mem : Option (List Nat)) (ca_mem_len cert_mem_len : Nat)
    (h : init_call.lws_tls_client_create_vhost_context cipher_list ca_filepath ca_mem
        ca_mem_len cert_filepath cert_mem cert_mem_len key_filepath
      ∈ (lws_context_init_client_ssl created info vhost).calls) :
    cipher_list = (if info.client_ssl_cipher_list.isSome = true then
        info.client_ssl_cipher_list else info.ssl_cipher_list) ∧
    cert_filepath = (if info.client_ssl_cert_filepath.isSome = true then
        info.client_ssl_cert_filepath
      else if vhost.ssl_ctx.isSome = true then none else info.ssl_cert_filepath) ∧
    key_filepath = (if info.client_ssl_private_key_filepath.isSome = true then
        info.client_ssl_private_key_filepath
      else if vhost.ssl_ctx.isSome = true then none else info.ssl_private_key_filepath) ∧
    ca_filepath = (if info.client_ssl_ca_filepath.isSome = true then
        info.client_ssl_ca_filepath
      else if vhost.ssl_ctx.isSome = true then none else info.ssl_ca_filepath) := by
  have hc : init_call.lws_tls_client_create_vhost_context cipher_list ca_filepath ca_mem
      ca_mem_len cert_filepath cert_mem cert_mem_len key_filepath
      = construct_call info vhost := by
    rcases init_calls created info vhost with h1 | ⟨h1, -⟩ | ⟨h1, -⟩
    · rw [h1] at h; simp at h
    · rw [h1] at h; simpa using h
    · rw [h1] at h; simpa using h
  simp only [construct_call, resolved_path, init_call.lws_tls_client_create_vhost_context.injEq]
    at hc
  exact ⟨hc.1, hc.2.2.2.2.1, hc.2.2.2.2.2.2.2, hc.2.1⟩

/-- C17, amended, on a vhost without a server TLS context: the client
certificate path is the client-specific one, the others are the legacy
ones. -/
theorem settings_resolution_witness :
    init_call.lws_tls_client_create_vhost_context (some "HIGH") (some "ca.pem") none 0
        (some "client.pem") none 0 (some "server.key")
      ∈ (lws_context_init_client_ssl (0, some 5) example_info example_vhost).calls ∧
    (some "client.pem" : Option String) = example_info.client_ssl_cert_filepath ∧
    (some "ca.pem" : Option String) = example_info.ssl_ca_filepath := by
  have h : init_call.lws_tls_client_create_vhost_context (some "HIGH") (some "ca.pem") none 0
        (some "client.pem") none 0 (some "server.key")
      ∈ (lws_context_init_client_ssl (0, some 5) example_info example_vhost).calls := by
    decide
  have r := settings_resolution (0, some 5) example_info example_vhost _ _ _ _ _ _ _ _ h
  exact ⟨h, r.2.1.trans (by decide), r.2.2.2.trans (by decide)⟩

/-- C18. Extension hook discipline: `lws_context_init_client_ssl` calls the
callback of protocol 0 with
`LWS_CALLBACK_OPENSSL_LOAD_EXTRA_CLIENT_VERIFY_CERTS` once, right after the
constructor and with the client context the vhost then has, when it called
the constructor and the constructor returned 0, and it then returns 0; on
every other path it does not call the callback; when the constructor fails it
returns 1 without calling the callback. -/
theorem hook_discipline (created : Int × Option Nat) (info : lws_context_creation_info)
    (vhost : lws_vhost) :
    (lws_context_init_client_ssl created info vhost).calls.countP is_hook
      = (if (lws_context_init_client_ssl created info vhost).calls.any is_construct = true ∧
            created.1 = 0 then 1 else 0) ∧
    ((lws_context_init_client_ssl created info vhost).calls.any is_construct = true →
      created.1 = 0 →
      (lws_context_init_client_ssl created info vhost).ret = 0 ∧
      (lws_context_init_client_ssl created info vhost).calls
        = [construct_call info vhost,
            init_call.callback_load_extra_client_verify_certs
              (lws_context_init_client_ssl created info vhost).vhost.ssl_client_ctx]) ∧
    ((lws_context_init_client_ssl created info vhost).calls.any is_construct = true →
      created.1 ≠ 0 →
      (lws_context_init_client_ssl created info vhost).ret = 1 ∧
      (lws_context_init_client_ssl created info vhost).ret ≠ 0 ∧
      (lws_context_init_client_ssl created info vhost).calls.countP is_hook = 0) := by
  rcases init_calls created info vhost with h1 | ⟨h1, h2, h3⟩ | ⟨h1, h2, h3, h4⟩
  · rw [h1]
    simp
  · rw [h1, h3]
    simp [construct_call, is_hook, is_construct, h2]
  · rw [h1, h3, h4]
    simp [construct_call, is_hook, is_construct, h2]

/-- C18 on a vhost without contexts, with a constructor that returns 0 and
stores the context 5. -/
theorem hook_discipline_witness :
    (lws_context_init_client_ssl (0, some 5) example_info example_vhost).calls.any
      is_construct = true ∧
    (lws_context_init_client_ssl (0, some 5) example_info example_vhost).ret = 0 ∧
    (lws_context_init_client_ssl (0, some 5) example_info example_vhost).calls
      = [construct_call example_info example_vhost,
          init_call.callback_load_extra_client_verify_certs (some 5)] := by
  have h := (hook_discipline (0, some 5) example_info example_vhost).2.1 (by decide) rfl
  exact ⟨by decide, h.1, h.2⟩

/-! ### State of the decoder across calls -/

/-- C19. The running total of the decoder, as the code has it: one call on
the input `"="` with `final`, from a zero-initialised state and with room for
64 bytes, produces no byte and leaves `done = 2 ^ 64 - 1`; one call on
`"QUJD="` produces 3 bytes and leaves `done = 2`. -/
theorem decode_done_miscounts :
    decode_calls lws_b64_decode_state_init [([61], 64, true)]
      = some [{ state := { quad0 := 0, quad1 := 0, quad2 := 0, quad3 := 0,
                           done := 18446744073709551615, len := 0, i := 0, c := 61 },
                in_len := 1, out_size := 0, out := [0] }] ∧
    decode_calls lws_b64_decode_state_init [(bytes "QUJD=", 64, true)]
      = some [{ state := { quad0 := 16, quad1 := 20, quad2 := 9, quad3 := 3, done := 2,
                           len := 0, i := 0, c := 61 },
                in_len := 5, out_size := 3, out := [65, 66, 67, 0] }] := by
  decide

theorem decodeChar_c_ne (x : Nat) (h : x % 256 ≠ 0) : (decodeChar x).1 ≠ 0 := by
  simp only [decodeChar]
  split_ifs <;> omega

theorem scanSym_c_ne (xs : List Nat) :
    ∀ c v, c ≠ 0 → (scanSym xs c v).2.1 ≠ 0 := by
  induction xs with
  | nil => intro c v h; simpa [scanSym] using h
  | cons x xs ih =>
      intro c v h
      rw [scanSym]
      split_ifs with h1
      · exact ih _ _ (decodeChar_c_ne x h1.1)
      · exact h

theorem scanSym_c_ne_of_more (xs : List Nat) (h : moreInput xs = true) :
    (scanSym xs 0 0).2.1 ≠ 0 := by
  cases xs with
  | nil => simp [moreInput] at h
  | cons x xs =>
      have hx : x % 256 ≠ 0 := by simpa [moreInput] using h
      rw [scanSym, if_pos ⟨hx, rfl⟩]
      exact scanSym_c_ne xs _ _ (decodeChar_c_ne x hx)

theorem size_add_one (x : Nat) (h : x ≤ 3) : size_add x 1 = x + 1 := by
  have h4 : (4 : Nat) < SIZE_MOD := by decide
  unfold size_add
  exact Nat.mod_eq_of_lt (by omega)

/-- The `for` loop keeps `s->i` and `s->len` equal, and at most 4. -/
theorem forLoop_inv (n : Nat) :
    ∀ (s : lws_b64state) (inp : List Nat), s.i = s.len → s.i ≤ 4 →
      (forLoop n s inp).1.i = (forLoop n s inp).1.len ∧ (forLoop n s inp).1.i ≤ 4 := by
  induction n with
  | zero => intro s inp h1 h2; exact ⟨h1, h2⟩
  | succ n ih =>
      intro s inp h1 h2
      rw [forLoop]
      by_cases h : s.i < 4 ∧ moreInput inp = true
      · rw [if_pos h]
        have hc := scanSym_c_ne_of_more inp h.2
        have hl : size_add s.len 1 = s.len + 1 := size_add_one _ (by omega)
        apply ih
        · simp only [if_pos hc]
          split_ifs <;> simp [hl, h1]
        · simp only [if_pos hc]
          split_ifs <;> simp <;> omega
      · rw [if_neg h]
        exact ⟨h1, h2⟩

theorem emitGroup_len (s : lws_b64state) (atEnd : Bool) : (emitGroup s atEnd).1.len = 0 := by
  simp only [emitGroup]

/-- The outer loop keeps `s->i` and `s->len` equal, and at most 3. -/
theorem decodeLoop_inv (final : Bool) (cap fuel : Nat) :
    ∀ (s : lws_b64state) (inp out : List Nat) (r : lws_b64state × List Nat × List Nat),
      s.i = s.len → s.i ≤ 3 → decodeLoop final cap fuel s inp out = some r →
      r.1.i = r.1.len ∧ r.1.i ≤ 3 := by
  induction fuel with
  | zero => intro s inp out r _ _ h; simp [decodeLoop] at h
  | succ fuel ih =>
      intro s inp out r h1 h2 h
      rw [decodeLoop] at h
      by_cases hc : moreInput inp = true ∧ out.length + 4 < cap
      · rw [if_pos hc] at h
        obtain ⟨f1, f2⟩ := forLoop_inv 4 s inp h1 (by omega)
        by_cases h3 : (forLoop 4 s inp).1.i ≠ 4 ∧ final = false
        · rw [if_pos h3] at h
          exact ih _ _ _ r f1 (by have := h3.1; omega) h
        · rw [if_neg h3] at h
          refine ih _ _ _ r ?_ ?_ h
          · rw [emitGroup_i, emitGroup_len]
          · rw [emitGroup_i]; omega
      · rw [if_neg hc] at h
        simp only [Option.some.injEq] at h
        rw [← h]
        exact ⟨h1, h2⟩

/-- With `final`, from `s->i = s->len = 0`, the outer loop ends with both 0. -/
theorem decodeLoop_final_zero (cap fuel : Nat) :
    ∀ (s : lws_b64state) (inp out : List Nat) (r : lws_b64state × List Nat × List Nat),
      s.i = 0 → s.len = 0 → decodeLoop true cap fuel s inp out = some r →
      r.1.i = 0 ∧ r.1.len = 0 := by
  induction fuel with
  | zero => intro s inp out r _ _ h; simp [decodeLoop] at h
  | succ fuel ih =>
      intro s inp out r h1 h2 h
      rw [decodeLoop] at h
      by_cases hc : moreInput inp = true ∧ out.length + 4 < cap
      · rw [if_pos hc] at h
        have h3 : ¬ ((forLoop 4 s inp).1.i ≠ 4 ∧ true = false) := by simp
        rw [if_neg h3] at h
        exact ih _ _ _ r (emitGroup_i _ _) (emitGroup_len _ _) h
      · rw [if_neg hc] at h
        simp only [Option.some.injEq] at h
        rw [← h]
        exact ⟨h1, h2⟩

/-- With `final`, an outer loop that consumed input ends with `s->i` and
`s->len` 0. -/
theorem decodeLoop_final_consumed (cap fuel : Nat) (s : lws_b64state) (inp out : List Nat)
    (r : lws_b64state × List Nat × List Nat)
    (h : decodeLoop true cap fuel s inp out = some r) (hl : r.2.1.length < inp.length) :
    r.1.i = 0 ∧ r.1.len = 0 := by
  cases fuel with
  | zero => simp [decodeLoop] at h
  | succ fuel =>
      rw [decodeLoop] at h
      by_cases hc : moreInput inp = true ∧ out.length + 4 < cap
      · rw [if_pos hc] at h
        have h3 : ¬ ((forLoop 4 s inp).1.i ≠ 4 ∧ true = false) := by simp
        rw [if_neg h3] at h
        exact decodeLoop_final_zero cap fuel _ _ _ r (emitGroup_i _ _) (emitGroup_len _ _) h
      · rw [if_neg hc] at h
        simp only [Option.some.injEq] at h
        rw [← h] at hl
        simp at hl

/-- The rest of the input the outer loop leaves is no longer than the input. -/
theorem decodeLoop_rest_le (final : Bool) (cap fuel : Nat) :
    ∀ (s : lws_b64state) (inp out : List Nat) (r : lws_b64state × List Nat × List Nat),
      decodeLoop final cap fuel s inp out = some r → r.2.1.length ≤ inp.length := by
  induction fuel with
  | zero => intro s inp out r h; simp [decodeLoop] at h
  | succ fuel ih =>
      intro s inp out r h
      rw [decodeLoop] at h
      by_cases hc : moreInput inp = true ∧ out.length + 4 < cap
      · rw [if_pos hc] at h
        have hle := forLoop_length_le 4 s inp
        by_cases h3 : (forLoop 4 s inp).1.i ≠ 4 ∧ final = false
        · rw [if_pos h3] at h
          exact Nat.le_trans (ih _ _ _ r h) hle
        · rw [if_neg h3] at h
          exact Nat.le_trans (ih _ _ _ r h) hle
      · rw [if_neg hc] at h
        simp only [Option.some.injEq] at h
        rw [← h]

/-- One call of `lws_b64_decode_stateful` from a state with
`s->i = s->len <= 3`: the call returns and leaves such a state, with both
fields 0 when `final` is set and a byte was consumed. -/
theorem decode_stateful_inv (s : lws_b64state) (inp : List Nat) (cap : Nat) (final : Bool)
    (h1 : s.i = s.len) (h2 : s.i ≤ 3) :
    ∃ r, lws_b64_decode_stateful s inp cap final = some r ∧
      r.state.i = r.state.len ∧ r.state.i ≤ 3 ∧
      (final = true → 1 ≤ r.in_len → r.state.i = 0 ∧ r.state.len = 0) := by
  obtain ⟨r, hr⟩ := decode_stateful_returns s inp cap final (Or.inl (by omega))
  refine ⟨r, hr, ?_⟩
  simp only [lws_b64_decode_stateful] at hr
  split at hr
  · exact absurd hr (by simp)
  · rename_i s1 rest out heq
    simp only [Option.some.injEq] at hr
    rw [← hr]
    obtain ⟨g1, g2⟩ := decodeLoop_inv final cap _ s inp [] _ h1 h2 heq
    refine ⟨g1, g2, ?_⟩
    intro hf hin
    subst hf
    have hle := decodeLoop_rest_le true cap _ s inp [] _ heq
    exact decodeLoop_final_consumed cap _ s inp [] _ heq (by simp only at hin hle ⊢; omega)

/-- Every call of a sequence of calls from a state with `s->i = s->len <= 3`
returns and leaves such a state. -/
theorem decode_calls_inv (calls : List (List Nat × Nat × Bool)) :
    ∀ s : lws_b64state, s.i = s.len → s.i ≤ 3 →
      ∃ rs, decode_calls s calls = some rs ∧
        List.Forall₂ (fun call r =>
          r.state.i = r.state.len ∧ r.state.i ≤ 3 ∧
          (call.2.2 = true → 1 ≤ r.in_len → r.state.i = 0 ∧ r.state.len = 0)) calls rs := by
  induction calls with
  | nil => intro s _ _; exact ⟨[], rfl, List.Forall₂.nil⟩
  | cons call rest ih =>
      intro s h1 h2
      obtain ⟨inp, cap, final⟩ := call
      obtain ⟨r, hr, g1, g2, g3⟩ := decode_stateful_inv s inp cap final h1 h2
      obtain ⟨rs, hrs, hall⟩ := ih r.state g1 g2
      refine ⟨r :: rs, ?_, List.Forall₂.cons ⟨g1, g2, g3⟩ hall⟩
      simp only [decode_calls, hr, hrs]

/-- C20. Decoder state invariant: from a zero-initialised state, every call
of every finite sequence of calls of `lws_b64_decode_stateful` (any inputs,
output capacities and `final` flags) returns, and the state it leaves has
`0 <= i <= 4` and `0 <= len <= 4`; more precisely `i = len <= 3`, and both are
0 after a call with `final` set that consumed at least one byte. -/
theorem decode_state_invariant (calls : List (List Nat × Nat × Bool)) :
    ∃ rs, decode_calls lws_b64_decode_state_init calls = some rs ∧
      List.Forall₂ (fun call r =>
        (r.state.i ≤ 4 ∧ r.state.len ≤ 4) ∧
        (r.state.i = r.state.len ∧ r.state.i ≤ 3) ∧
        (call.2.2 = true → 1 ≤ r.in_len → r.state.i = 0 ∧ r.state.len = 0)) calls rs := by
  obtain ⟨rs, h, hall⟩ := decode_calls_inv calls lws_b64_decode_state_init rfl (by decide)
  refine ⟨rs, h, hall.imp ?_⟩
  intro call r ⟨g1, g2, g3⟩
  exact ⟨⟨by omega, by omega⟩, ⟨g1, g2⟩, g3⟩

/-- C20 on `"QUJDQQ=="` fed in three calls, the last with `final`: the states
left have `i = len` equal to 2, 1 and 0. -/
theorem decode_state_invariant_witness :
    (decode_calls lws_b64_decode_state_init
        [(bytes "QU", 64, false), (bytes "JDQ", 64, false), (bytes "Q==", 64, true)]).map
        (fun rs => rs.map (fun r => (r.state.i, r.state.len, r.in_len)))
      = some [(2, 2, 2), (1, 1, 3), (0, 0, 3)] ∧
    ∃ rs, decode_calls lws_b64_decode_state_init
        [(bytes "QU", 64, false), (bytes "JDQ", 64, false), (bytes "Q==", 64, true)]
        = some rs ∧
      List.Forall₂ (fun call r =>
        (r.state.i ≤ 4 ∧ r.state.len ≤ 4) ∧
        (r.state.i = r.state.len ∧ r.state.i ≤ 3) ∧
        (call.2.2 = true → 1 ≤ r.in_len → r.state.i = 0 ∧ r.state.len = 0))
        [(bytes "QU", 64, false), (bytes "JDQ", 64, false), (bytes "Q==", 64, true)] rs :=
  ⟨by decide, decode_state_invariant _⟩

end Lws
